import Mathlib

/-!
Shallow embedding of the llm-council multi-provider model-query router
(backend/providers: `__init__.py`, `base.py`, `ollama.py`, `openrouter.py`)
together with the configuration it reads (backend/config.py), and theorems
about specifier parsing, the provider registry lifecycle, single and
parallel dispatch, and adapter result extraction.

Modelling conventions:
- Python strings are embedded as lists of characters (`Str`).
- Python dicts are embedded as association lists with Python dict
  semantics: assignment keeps the first-occurrence key position and
  replaces the stored value (`dictIns`); lookup is `dictLookup`.
- Python exceptions are values of `PyErr`; a function body that can raise
  returns `Except PyErr`; a try/except block is a `match` on that value.
- The network is a parameter: each HTTP round trip is an oracle value of
  type `Except HttpErr MsgDict` giving the parsed `choices[0].message`
  object on success, or the raised transport/parse exception on failure.
  The float timeout argument is passed through to the transport untouched
  by this subsystem and is absorbed into the oracle.
- Concurrency: the only shared mutable state is the provider registry,
  which is touched exclusively by the synchronous function `get_provider`
  (it contains no await, hence no suspension point), so the asyncio event
  loop of the source executes each call atomically; concurrent executions
  are embedded as arbitrary serialized lists of atomic calls.
-/

namespace LLMCouncil

/-- Python strings, embedded as their sequence of code points. -/
abbrev Str := List Char

/-- Chat messages: role/content pairs, opaque to the router. -/
abbrev Msgs := List (Str × Str)

/-- Values observed at the response-extraction boundary: JSON null (also
covering an absent key read through `dict.get`) or text. -/
inductive PyVal where
  | vnone
  | vstr (s : Str)
deriving DecidableEq

/-- The parsed `choices[0].message` JSON object of a backend response. -/
abbrev MsgDict := List (Str × PyVal)

/-- Python dict assignment `d[k] = v`: replace in place if the key exists,
otherwise append the new key at the end (insertion order). -/
def dictIns {α : Type} (d : List (Str × α)) (k : Str) (v : α) : List (Str × α) :=
  match d with
  | [] => [(k, v)]
  | kv :: rest => if kv.1 = k then (k, v) :: rest else kv :: dictIns rest k v

/-- Python dict read `d.get(k)`: the stored value as an option. -/
def dictLookup {α : Type} (d : List (Str × α)) (k : Str) : Option α :=
  match d with
  | [] => none
  | kv :: rest => if kv.1 = k then some kv.2 else dictLookup rest k

/-- Sequence of Python dict assignments, one per pair of `ps` in order. -/
def dictFold {α : Type} (d : List (Str × α)) (ps : List (Str × α)) : List (Str × α) :=
  ps.foldl (fun d2 kv => dictIns d2 kv.1 kv.2) d

/-- The keys of a dict, in insertion order. -/
def dictKeys {α : Type} (d : List (Str × α)) : List Str := d.map Prod.fst

/-- Python `message.get(key)` where a missing key reads as None. -/
def pyGet (d : MsgDict) (k : Str) : PyVal := (dictLookup d k).getD PyVal.vnone

/-- Exceptions raised by the router subsystem. The first three model the
`ValueError` raises of the source (bare specifier in mixed mode, invalid
provider name, missing OPENROUTER_API_KEY); `keyError` models a Python
`KeyError` from a dict subscript. -/
inductive PyErr where
  | ambiguousSpec (spec : Str)
  | invalidProviderName (n : Str)
  | missingApiKey
  | keyError (k : Str)
deriving DecidableEq

/-- Whether a `PyErr` is a Python ValueError, i.e. matched by the clause
`except ValueError` in the source. -/
def PyErr.isValueError : PyErr → Bool
  | .ambiguousSpec _ => true
  | .invalidProviderName _ => true
  | .missingApiKey => true
  | .keyError _ => false

/-- Process configuration read by backend/config.py from the environment:
LLM_PROVIDER, OPENROUTER_API_KEY (None when the variable is unset) and
OLLAMA_BASE_URL. -/
structure Env where
  llm_provider : Str
  openrouter_api_key : Option Str
  ollama_base_url : Str
deriving DecidableEq

/-- Python truthiness of the key check `not OPENROUTER_API_KEY`: true when
the key is unset or the empty string. -/
def pyFalsy : Option Str → Bool
  | none => true
  | some s => s.isEmpty

def ollamaName : Str := "ollama".toList
def openrouterName : Str := "openrouter".toList
def mixedName : Str := "mixed".toList
def ollamaTag : Str := "ollama:".toList
def openrouterTag : Str := "openrouter:".toList
def keyContent : Str := "content".toList
def keyReasoning : Str := "reasoning_details".toList
def invalidKey : Str := "_invalid".toList

/-- backend/providers/__init__.py parse_model_spec: recognize the literal
tags "ollama:" (7 characters stripped) and "openrouter:" (11 characters
stripped); otherwise fall back to the configured LLM_PROVIDER, rejecting
bare specifiers when it is "mixed". -/
def parse_model_spec (llm_provider : Str) (model_spec : Str) : Except PyErr (Str × Str) :=
  if ollamaTag.isPrefixOf model_spec then
    .ok (ollamaName, model_spec.drop 7)
  else if openrouterTag.isPrefixOf model_spec then
    .ok (openrouterName, model_spec.drop 11)
  else if llm_provider = mixedName then
    .error (.ambiguousSpec model_spec)
  else
    .ok (llm_provider, model_spec)

/-- The concrete adapter variants with the construction-time configuration
each stores: OpenRouterProvider keeps the api key, OllamaProvider keeps the
base url stripped of trailing slashes. -/
inductive ProviderImpl where
  | openrouter (api_key : Str)
  | ollama (base_url : Str)
deriving DecidableEq

/-- A provider instance as cached by the registry; `uid` is an
instrumentation serial number distinguishing separately constructed
instances. -/
structure ProviderInst where
  uid : Nat
  impl : ProviderImpl
deriving DecidableEq

/-- Python `s.rstrip(c)` for a single character. -/
def rstripChar (s : Str) (c : Char) : Str :=
  (s.reverse.dropWhile (fun x => x = c)).reverse

/-- The module-level `_provider_instances` dict, with instrumentation: a
fresh-uid counter and the ordered list of performed constructions. -/
structure Registry where
  instances : List (Str × ProviderInst)
  nextUid : Nat
  constructions : List Str
deriving DecidableEq

/-- Registry at module import time: the empty dict. -/
def initRegistry : Registry := { instances := [], nextUid := 0, constructions := [] }

/-- backend/providers/__init__.py get_provider: validate the provider name,
return the cached instance when one exists, otherwise construct an instance
(checking OPENROUTER_API_KEY on the openrouter path only) and cache it. -/
def get_provider (env : Env) (st : Registry) (provider_name : Str) :
    Except PyErr ProviderInst × Registry :=
  if provider_name ≠ openrouterName ∧ provider_name ≠ ollamaName then
    (.error (.invalidProviderName provider_name), st)
  else
    match dictLookup st.instances provider_name with
    | some p => (.ok p, st)
    | none =>
      if provider_name = openrouterName then
        if pyFalsy env.openrouter_api_key then
          (.error .missingApiKey, st)
        else
          (.ok { uid := st.nextUid, impl := .openrouter (env.openrouter_api_key.getD []) },
           { instances := dictIns st.instances provider_name
               { uid := st.nextUid, impl := .openrouter (env.openrouter_api_key.getD []) },
             nextUid := st.nextUid + 1,
             constructions := st.constructions ++ [provider_name] })
      else
        (.ok { uid := st.nextUid, impl := .ollama (rstripChar env.ollama_base_url '/') },
         { instances := dictIns st.instances provider_name
             { uid := st.nextUid, impl := .ollama (rstripChar env.ollama_base_url '/') },
           nextUid := st.nextUid + 1,
           constructions := st.constructions ++ [provider_name] })

/-- Transport or response-extraction failure inside an adapter query:
httpx.ConnectError, httpx.HTTPStatusError, httpx.TimeoutException, or any
other exception (including a malformed body while reading
`data["choices"][0]["message"]`). -/
inductive HttpErr where
  | connectError
  | statusError (code : Nat)
  | timeoutExc
  | otherExc
deriving DecidableEq

/-- Network oracle for a single query: for a model id and message list, the
outcome of the HTTP POST including extraction of `choices[0].message`. -/
abbrev NetOne := Str → Msgs → Except HttpErr MsgDict

/-- Network oracle for a gathered batch: the single-query oracle seen by
the i-th task of the `asyncio.gather` fan-out. -/
abbrev NetBatch := Nat → NetOne

/-- The result dict a provider returns on success. -/
structure QueryResult where
  content : PyVal
  reasoning_details : PyVal
deriving DecidableEq

/-- backend/providers/openrouter.py OpenRouterProvider.query_model: POST the
payload, on success extract `content` and `reasoning_details` through
`message.get`; the whole body sits in a bare `except Exception`, so every
failure returns None. -/
def OpenRouterProvider.query_model (model : Str) (messages : Msgs) (respond : NetOne) :
    Option QueryResult :=
  match respond model messages with
  | .ok message =>
    some { content := pyGet message keyContent,
           reasoning_details := pyGet message keyReasoning }
  | .error _ => none

/-- backend/providers/ollama.py OllamaProvider.query_model: same request
shape, `reasoning_details` pinned to None, with separate except clauses for
connect errors, HTTP status errors, timeouts and any other exception, each
returning None. -/
def OllamaProvider.query_model (model : Str) (messages : Msgs) (respond : NetOne) :
    Option QueryResult :=
  match respond model messages with
  | .ok message =>
    some { content := pyGet message keyContent, reasoning_details := PyVal.vnone }
  | .error .connectError => none
  | .error (.statusError _) => none
  | .error .timeoutExc => none
  | .error .otherExc => none

/-- Pair each list element with its task index, starting at `i`. -/
def withIdx {α : Type} (l : List α) (i : Nat) : List (Nat × α) :=
  match l with
  | [] => []
  | a :: as => (i, a) :: withIdx as (i + 1)

/-- The dict comprehension over `zip(models, responses)` where `responses`
is the gathered list with one entry per task, in task order. -/
def batchOf (q : Nat → Str → Option QueryResult) (models : List Str) :
    List (Str × Option QueryResult) :=
  dictFold [] ((withIdx models 0).map (fun im => (im.2, q im.1 im.2)))

/-- ollama.py OllamaProvider.query_models_parallel: one query_model task per
model, gathered, then zipped back into a dict keyed by model tag. -/
def OllamaProvider.query_models_parallel (net : NetBatch) (messages : Msgs)
    (models : List Str) : List (Str × Option QueryResult) :=
  batchOf (fun i m => OllamaProvider.query_model m messages (net i)) models

/-- openrouter.py OpenRouterProvider.query_models_parallel: identical batch
semantics over OpenRouterProvider.query_model. -/
def OpenRouterProvider.query_models_parallel (net : NetBatch) (messages : Msgs)
    (models : List Str) : List (Str × Option QueryResult) :=
  batchOf (fun i m => OpenRouterProvider.query_model m messages (net i)) models

/-- Dynamic dispatch of a single query over the concrete adapter variant. -/
def ProviderImpl.query_model (impl : ProviderImpl) (model : Str) (messages : Msgs)
    (respond : NetOne) : Option QueryResult :=
  match impl with
  | .openrouter _ => OpenRouterProvider.query_model model messages respond
  | .ollama _ => OllamaProvider.query_model model messages respond

/-- Dynamic dispatch of the batch query over the concrete adapter variant. -/
def ProviderImpl.query_models_parallel (impl : ProviderImpl) (net : NetBatch)
    (messages : Msgs) (models : List Str) : List (Str × Option QueryResult) :=
  match impl with
  | .openrouter _ => OpenRouterProvider.query_models_parallel net messages models
  | .ollama _ => OllamaProvider.query_models_parallel net messages models

/-- Network oracle keyed by provider name, as seen from the router for a
single query. -/
abbrev NetByProv := Str → NetOne

/-- Body of __init__.py query_model before its except clauses: parse the
spec, obtain the provider, run the single query (which itself never
raises). -/
def query_model_body (env : Env) (st : Registry) (net : NetByProv)
    (model_spec : Str) (messages : Msgs) :
    Except PyErr (Option QueryResult) × Registry :=
  match parse_model_spec env.llm_provider model_spec with
  | .error e => (.error e, st)
  | .ok pm =>
    match get_provider env st pm.1 with
    | (.error e, st2) => (.error e, st2)
    | (.ok prov, st2) => (.ok (prov.impl.query_model pm.2 messages (net pm.1)), st2)

/-- __init__.py query_model: the body wrapped in `except ValueError` and
`except Exception`, both of which print a message and return None. -/
def Providers.query_model (env : Env) (st : Registry) (net : NetByProv)
    (model_spec : Str) (messages : Msgs) :
    Except PyErr (Option QueryResult) × Registry :=
  match query_model_body env st net model_spec messages with
  | (.ok r, st2) => (.ok r, st2)
  | (.error e, st2) =>
    if e.isValueError then (.ok none, st2) else (.ok none, st2)

/-- Append an entry to one group of the provider_groups dict, creating the
group at the end when absent (the not-in / setdefault pattern of the
source). -/
def groupAppend (groups : List (Str × List (Str × Option Str))) (k : Str)
    (e : Str × Option Str) : List (Str × List (Str × Option Str)) :=
  match dictLookup groups k with
  | some l => dictIns groups k (l ++ [e])
  | none => groups ++ [(k, [e])]

/-- First loop of __init__.py query_models_parallel: group the specs by
parsed provider name, collecting unparsable specs under the reserved
"_invalid" key with a None model id. -/
def buildGroups (llm_provider : Str) (model_specs : List Str) :
    List (Str × List (Str × Option Str)) :=
  model_specs.foldl (fun groups spec =>
    match parse_model_spec llm_provider spec with
    | .ok pm => groupAppend groups pm.1 (spec, some pm.2)
    | .error _ => groupAppend groups invalidKey (spec, none)) []

/-- The result mapping built by a dispatch call. -/
abbrev ResDict := List (Str × Option QueryResult)

/-- Read the stored model ids out of a non-invalid group (every entry there
was stored with a `some` model id). -/
def stripEntries (l : List (Str × Option Str)) : List (Str × Str) :=
  l.filterMap (fun sm => sm.2.map (fun m => (sm.1, m)))

/-- A queued per-provider batch task: provider name, instance, and the
(original specifier, model id) pairs of its group. -/
structure Task where
  name : Str
  prov : ProviderInst
  pairs : List (Str × Str)
deriving DecidableEq

/-- Second loop of __init__.py query_models_parallel: record a None result
for every entry of the invalid group and of any group whose provider cannot
be obtained (`except ValueError` around get_provider); queue a batch task
for each remaining group. -/
def groupStep (env : Env) (acc : ResDict × List Task × Registry)
    (g : Str × List (Str × Option Str)) : ResDict × List Task × Registry :=
  if g.1 = invalidKey then
    (dictFold acc.1 (g.2.map (fun sm => (sm.1, (none : Option QueryResult)))),
     acc.2.1, acc.2.2)
  else
    match get_provider env acc.2.2 g.1 with
    | (.error _, st2) =>
      (dictFold acc.1 (g.2.map (fun sm => (sm.1, (none : Option QueryResult)))),
       acc.2.1, st2)
    | (.ok p, st2) =>
      (acc.1, acc.2.1 ++ [{ name := g.1, prov := p, pairs := stripEntries g.2 }], st2)

/-- Python dict subscript `d[k]`: raises KeyError when the key is absent. -/
def dictSub {α : Type} (d : List (Str × α)) (k : Str) : Except PyErr α :=
  match dictLookup d k with
  | some v => .ok v
  | none => .error (.keyError k)

/-- The query_provider_batch helper of __init__.py: run the provider batch
over the group model ids and re-key the model-id-keyed results by the
original specifiers through a dict subscript (which can in principle raise
KeyError, hence the Except). -/
def query_provider_batch (messages : Msgs) (net : NetBatch) (t : Task) :
    Except PyErr ResDict :=
  (t.pairs.mapM (fun sm =>
    (dictSub (t.prov.impl.query_models_parallel net messages (t.pairs.map Prod.snd))
      sm.2).map (fun r => (sm.1, r)))).map
    (fun prs => dictFold [] prs)

/-- Instrumentation: the model queries issued by the gathered tasks, as
(provider name, model id) pairs. -/
def queryLogOf (tasks : List Task) : List (Str × Str) :=
  tasks.foldl (fun lg t => lg ++ t.pairs.map (fun sm => (t.name, sm.2))) []

instance exceptDecEq {ε α : Type} [DecidableEq ε] [DecidableEq α] :
    DecidableEq (Except ε α) := fun x y =>
  match x, y with
  | .ok a, .ok b =>
    if h : a = b then isTrue (by rw [h])
    else isFalse (by intro hc; cases hc; exact h rfl)
  | .ok _, .error _ => isFalse (by intro hc; cases hc)
  | .error _, .ok _ => isFalse (by intro hc; cases hc)
  | .error e, .error f =>
    if h : e = f then isTrue (by rw [h])
    else isFalse (by intro hc; cases hc; exact h rfl)

/-- Outcome of one dispatch call: the returned mapping (or an escaped
exception), the registry after the call, and the issued queries. -/
structure DispatchOut where
  result : Except PyErr ResDict
  registry : Registry
  queryLog : List (Str × Str)
deriving DecidableEq

/-- The grouping and provider-resolution phase of query_models_parallel:
fold groupStep over the provider groups, starting from an empty result
dict, no tasks, and the current registry. -/
def groupsFoldOf (env : Env) (st : Registry) (model_specs : List Str) :
    ResDict × List Task × Registry :=
  (buildGroups env.llm_provider model_specs).foldl (groupStep env) ([], [], st)

/-- Final loop of query_models_parallel: add a None entry for every input
spec not already present in the merged results. -/
def backfill (d : ResDict) (model_specs : List Str) : ResDict :=
  model_specs.foldl (fun d2 spec =>
    if (dictLookup d2 spec).isSome then d2 else dictIns d2 spec none) d

/-- __init__.py query_models_parallel: group by provider, fail invalid and
unconstructible groups to None, gather the per-provider batch tasks
(asyncio.gather propagates a raised exception, hence the error case), merge
the re-keyed dicts in task order, and backfill a None entry for any input
spec still missing. -/
def Providers.query_models_parallel (env : Env) (st : Registry) (net : Str → NetBatch)
    (model_specs : List Str) (messages : Msgs) : DispatchOut :=
  match (groupsFoldOf env st model_specs).2.1.mapM
      (fun t => query_provider_batch messages (net t.name) t) with
  | .error e =>
    { result := .error e, registry := (groupsFoldOf env st model_specs).2.2,
      queryLog := queryLogOf (groupsFoldOf env st model_specs).2.1 }
  | .ok dicts =>
    { result := .ok (backfill
        (dicts.foldl dictFold (groupsFoldOf env st model_specs).1) model_specs),
      registry := (groupsFoldOf env st model_specs).2.2,
      queryLog := queryLogOf (groupsFoldOf env st model_specs).2.1 }

/-- A serialized trace of get_provider calls: get_provider is synchronous
(no await inside), so the event loop of the source runs each call
atomically, and every concurrent execution of a set of calls is some list
of atomic calls. -/
def runGetProvider (calls : List (Env × Str)) (st : Registry) :
    Registry × List (Str × Except PyErr ProviderInst) :=
  match calls with
  | [] => (st, [])
  | c :: rest =>
    ((runGetProvider rest (get_provider c.1 st c.2).2).1,
     (c.2, (get_provider c.1 st c.2).1) ::
       (runGetProvider rest (get_provider c.1 st c.2).2).2)

/-- The (specifier, model id) pairs that land in provider group `p`, in
input order: the closed form of the grouping loop. -/
def groupPairs (llm_provider : Str) (model_specs : List Str) (p : Str) :
    List (Str × Str) :=
  model_specs.filterMap (fun s =>
    match parse_model_spec llm_provider s with
    | .ok pm => if pm.1 = p then some (s, pm.2) else none
    | .error _ => none)

/-- The model ids destined for provider group `p`, in input order. -/
def groupModelIds (llm_provider : Str) (model_specs : List Str) (p : Str) : List Str :=
  (groupPairs llm_provider model_specs p).map Prod.snd

/-! Association-list lemmas for the Python-dict embedding. -/

theorem dictIns_cons {α : Type} (kv : Str × α) (rest : List (Str × α)) (k : Str) (v : α) :
    dictIns (kv :: rest) k v =
      if kv.1 = k then (k, v) :: rest else kv :: dictIns rest k v := rfl

theorem dictLookup_cons {α : Type} (kv : Str × α) (rest : List (Str × α)) (k : Str) :
    dictLookup (kv :: rest) k =
      if kv.1 = k then some kv.2 else dictLookup rest k := rfl

theorem dictKeys_nil {α : Type} : dictKeys ([] : List (Str × α)) = [] := rfl

theorem dictKeys_cons {α : Type} (kv : Str × α) (rest : List (Str × α)) :
    dictKeys (kv :: rest) = kv.1 :: dictKeys rest := rfl

theorem dictLookup_dictIns_self {α : Type} (d : List (Str × α)) (k : Str) (v : α) :
    dictLookup (dictIns d k v) k = some v := by
  induction d with
  | nil => simp [dictIns, dictLookup]
  | cons kv rest ih =>
    by_cases h : kv.1 = k
    · rw [dictIns_cons, if_pos h, dictLookup_cons, if_pos rfl]
    · rw [dictIns_cons, if_neg h, dictLookup_cons, if_neg h, ih]

theorem dictLookup_dictIns_ne {α : Type} (d : List (Str × α)) (k k2 : Str) (v : α)
    (hne : k2 ≠ k) : dictLookup (dictIns d k v) k2 = dictLookup d k2 := by
  have hkk2 : ¬k = k2 := fun hc => hne hc.symm
  induction d with
  | nil => simp [dictIns, dictLookup, hkk2]
  | cons kv rest ih =>
    by_cases h : kv.1 = k
    · have h2 : ¬kv.1 = k2 := by rw [h]; exact hkk2
      rw [dictIns_cons, if_pos h, dictLookup_cons, if_neg hkk2,
        dictLookup_cons, if_neg h2]
    · rw [dictIns_cons, if_neg h, dictLookup_cons, dictLookup_cons, ih]

theorem mem_dictKeys_iff_lookup {α : Type} (d : List (Str × α)) (k : Str) :
    k ∈ dictKeys d ↔ (dictLookup d k).isSome := by
  induction d with
  | nil =>
    rw [dictKeys_nil]
    simp [dictLookup]
  | cons kv rest ih =>
    by_cases h : kv.1 = k
    · rw [dictKeys_cons, dictLookup_cons, if_pos h, h]
      simp
    · rw [dictKeys_cons, dictLookup_cons, if_neg h, ← ih, List.mem_cons]
      constructor
      · rintro (hc | hc)
        · exact absurd hc.symm h
        · exact hc
      · exact Or.inr

theorem dictLookup_mem {α : Type} (d : List (Str × α)) (k : Str) (v : α)
    (h : dictLookup d k = some v) : (k, v) ∈ d := by
  induction d with
  | nil => exact absurd h (by simp [dictLookup])
  | cons kv rest ih =>
    by_cases hk : kv.1 = k
    · rw [dictLookup_cons, if_pos hk] at h
      obtain ⟨k1, v1⟩ := kv
      simp only at hk
      simp only [Option.some_inj] at h
      rw [← hk, ← h]
      exact List.mem_cons_self _ _
    · rw [dictLookup_cons, if_neg hk] at h
      exact List.mem_cons_of_mem _ (ih h)

theorem mem_dictKeys_dictIns {α : Type} (d : List (Str × α)) (k k2 : Str) (v : α) :
    k2 ∈ dictKeys (dictIns d k v) ↔ k2 ∈ dictKeys d ∨ k2 = k := by
  by_cases h : k2 = k
  · subst h
    constructor
    · intro _
      exact Or.inr rfl
    · intro _
      rw [mem_dictKeys_iff_lookup, dictLookup_dictIns_self]
      rfl
  · rw [mem_dictKeys_iff_lookup, dictLookup_dictIns_ne d k k2 v h,
      ← mem_dictKeys_iff_lookup]
    simp [h]

theorem dictKeys_dictIns_mem {α : Type} (d : List (Str × α)) (k : Str) (v : α)
    (h : k ∈ dictKeys d) : dictKeys (dictIns d k v) = dictKeys d := by
  induction d with
  | nil => exact absurd h (by rw [dictKeys_nil]; exact List.not_mem_nil k)
  | cons kv rest ih =>
    by_cases hk : kv.1 = k
    · rw [dictIns_cons, if_pos hk, dictKeys_cons, dictKeys_cons, hk]
    · have h2 : k ∈ dictKeys rest := by
        rw [dictKeys_cons] at h
        rcases List.mem_cons.mp h with h4 | h4
        · exact absurd h4.symm hk
        · exact h4
      rw [dictIns_cons, if_neg hk, dictKeys_cons, dictKeys_cons, ih h2]

theorem dictKeys_dictIns_not_mem {α : Type} (d : List (Str × α)) (k : Str) (v : α)
    (h : k ∉ dictKeys d) : dictKeys (dictIns d k v) = dictKeys d ++ [k] := by
  induction d with
  | nil => simp [dictIns, dictKeys]
  | cons kv rest ih =>
    have hk : ¬kv.1 = k := by
      intro hc
      apply h
      rw [dictKeys_cons]
      exact List.mem_cons.mpr (Or.inl hc.symm)
    have h2 : k ∉ dictKeys rest := by
      intro hc
      apply h
      rw [dictKeys_cons]
      exact List.mem_cons.mpr (Or.inr hc)
    rw [dictIns_cons, if_neg hk, dictKeys_cons, dictKeys_cons, ih h2,
      List.cons_append]

theorem nodup_dictKeys_dictIns {α : Type} (d : List (Str × α)) (k : Str) (v : α)
    (h : (dictKeys d).Nodup) : (dictKeys (dictIns d k v)).Nodup := by
  by_cases hm : k ∈ dictKeys d
  · rw [dictKeys_dictIns_mem d k v hm]
    exact h
  · rw [dictKeys_dictIns_not_mem d k v hm]
    rw [List.nodup_append]
    refine ⟨h, List.nodup_singleton k, ?_⟩
    intro a ha hb
    rw [List.mem_singleton] at hb
    exact hm (hb ▸ ha)

theorem dictFold_nil {α : Type} (d : List (Str × α)) : dictFold d [] = d := rfl

theorem dictFold_cons {α : Type} (d : List (Str × α)) (kv : Str × α) (ps : List (Str × α)) :
    dictFold d (kv :: ps) = dictFold (dictIns d kv.1 kv.2) ps := rfl

theorem dictLookup_dictFold_not_mem {α : Type} (ps : List (Str × α)) (d : List (Str × α))
    (k : Str) (h : k ∉ dictKeys ps) :
    dictLookup (dictFold d ps) k = dictLookup d k := by
  induction ps generalizing d with
  | nil => rfl
  | cons kv rest ih =>
    rw [dictKeys_cons] at h
    have h1 : k ≠ kv.1 := fun hc => h (List.mem_cons.mpr (Or.inl hc))
    have h2 : k ∉ dictKeys rest := fun hc => h (List.mem_cons.mpr (Or.inr hc))
    rw [dictFold_cons, ih _ h2, dictLookup_dictIns_ne _ _ _ _ h1]

theorem dictLookup_dictFold_const {α : Type} (ps : List (Str × α)) (d : List (Str × α))
    (k : Str) (w : α) (hconst : ∀ v, (k, v) ∈ ps → v = w) (hmem : k ∈ dictKeys ps) :
    dictLookup (dictFold d ps) k = some w := by
  induction ps generalizing d with
  | nil => exact absurd hmem (by rw [dictKeys_nil]; exact List.not_mem_nil k)
  | cons kv rest ih =>
    rw [dictFold_cons]
    by_cases h2 : k ∈ dictKeys rest
    · exact ih _ (fun v hv => hconst v (List.mem_cons_of_mem _ hv)) h2
    · have hk : kv.1 = k := by
        rw [dictKeys_cons] at hmem
        rcases List.mem_cons.mp hmem with h3 | h3
        · exact h3.symm
        · exact absurd h3 h2
      have hv : kv.2 = w := by
        apply hconst
        have : (k, kv.2) = kv := by
          obtain ⟨k1, v1⟩ := kv
          simp only at hk
          rw [hk]
        rw [this]
        exact List.mem_cons_self _ _
      rw [dictLookup_dictFold_not_mem _ _ _ h2, ← hk, ← hv]
      exact dictLookup_dictIns_self _ _ _

theorem mem_dictKeys_dictFold {α : Type} (ps : List (Str × α)) (d : List (Str × α))
    (k : Str) : k ∈ dictKeys (dictFold d ps) ↔ k ∈ dictKeys d ∨ k ∈ dictKeys ps := by
  induction ps generalizing d with
  | nil =>
    rw [dictFold_nil, dictKeys_nil]
    simp
  | cons kv rest ih =>
    rw [dictFold_cons, ih, mem_dictKeys_dictIns, dictKeys_cons, List.mem_cons]
    constructor
    · rintro (⟨h | h⟩ | h)
      · exact Or.inl h
      · exact Or.inr (Or.inl h)
      · exact Or.inr (Or.inr h)
    · rintro (h | h | h)
      · exact Or.inl (Or.inl h)
      · exact Or.inl (Or.inr h)
      · exact Or.inr h

theorem nodup_dictKeys_dictFold {α : Type} (ps : List (Str × α)) (d : List (Str × α))
    (h : (dictKeys d).Nodup) : (dictKeys (dictFold d ps)).Nodup := by
  induction ps generalizing d with
  | nil => exact h
  | cons kv rest ih => exact ih _ (nodup_dictKeys_dictIns _ _ _ h)

theorem dictKeys_dictFold_fresh {α : Type} (ps : List (Str × α)) (d : List (Str × α))
    (hnd : (dictKeys ps).Nodup) (hdisj : ∀ k ∈ dictKeys ps, k ∉ dictKeys d) :
    dictKeys (dictFold d ps) = dictKeys d ++ dictKeys ps := by
  induction ps generalizing d with
  | nil =>
    rw [dictFold_nil, dictKeys_nil, List.append_nil]
  | cons kv rest ih =>
    rw [dictKeys_cons] at hnd hdisj
    have hk : kv.1 ∉ dictKeys d := hdisj kv.1 (List.mem_cons_self _ _)
    have hnd2 : (dictKeys rest).Nodup := (List.nodup_cons.mp hnd).2
    have hk2 : kv.1 ∉ dictKeys rest := (List.nodup_cons.mp hnd).1
    have hdisj2 : ∀ k ∈ dictKeys rest, k ∉ dictKeys (dictIns d kv.1 kv.2) := by
      intro k hkr
      rw [mem_dictKeys_dictIns]
      rintro (h | h)
      · exact hdisj k (List.mem_cons_of_mem _ hkr) h
      · exact hk2 (h ▸ hkr)
    rw [dictFold_cons, ih _ hnd2 hdisj2, dictKeys_dictIns_not_mem _ _ _ hk,
      dictKeys_cons, List.append_assoc, List.singleton_append]

theorem dictLookup_eq_of_nodup_mem {α : Type} (d : List (Str × α)) (k : Str) (v : α)
    (hnd : (dictKeys d).Nodup) (hm : (k, v) ∈ d) : dictLookup d k = some v := by
  induction d with
  | nil => exact absurd hm (List.not_mem_nil _)
  | cons kv rest ih =>
    rw [dictKeys_cons] at hnd
    rcases List.mem_cons.mp hm with hm2 | hm2
    · rw [← hm2, dictLookup_cons, if_pos rfl]
    · have hk : ¬kv.1 = k := by
        intro hc
        have hkeys : k ∈ dictKeys rest := by
          rw [dictKeys]
          exact List.mem_map.mpr ⟨(k, v), hm2, rfl⟩
        exact (List.nodup_cons.mp hnd).1 (hc ▸ hkeys)
      rw [dictLookup_cons, if_neg hk]
      exact ih (List.nodup_cons.mp hnd).2 hm2

/-! Lemmas about the indexed batch construction. -/

theorem withIdx_map_snd {α : Type} (l : List α) (i : Nat) :
    (withIdx l i).map Prod.snd = l := by
  induction l generalizing i with
  | nil => rfl
  | cons a as ih =>
    rw [withIdx, List.map_cons, ih]

theorem mem_withIdx {α : Type} (l : List α) (i : Nat) (p : Nat × α)
    (h : p ∈ withIdx l i) : i ≤ p.1 ∧ l.get? (p.1 - i) = some p.2 := by
  induction l generalizing i with
  | nil => exact absurd h (List.not_mem_nil _)
  | cons a as ih =>
    rw [withIdx] at h
    rcases List.mem_cons.mp h with h1 | h1
    · rw [h1]
      simp
    · obtain ⟨hle, hget⟩ := ih (i + 1) h1
      refine ⟨by omega, ?_⟩
      have harith : p.1 - i = (p.1 - (i + 1)) + 1 := by omega
      rw [harith]
      simpa using hget

theorem get_mem_withIdx {α : Type} (l : List α) (i j : Nat) (a : α)
    (h : l.get? j = some a) : (i + j, a) ∈ withIdx l i := by
  induction l generalizing i j with
  | nil => simp at h
  | cons b bs ih =>
    cases j with
    | zero =>
      simp at h
      rw [withIdx, h]
      exact List.mem_cons_self _ _
    | succ j2 =>
      rw [withIdx]
      apply List.mem_cons_of_mem
      have hmem := ih (i + 1) j2 (by simpa using h)
      have harith : i + 1 + j2 = i + (j2 + 1) := by omega
      rwa [harith] at hmem

theorem batchOf_keys_eq (q : Nat → Str → Option QueryResult) (models : List Str) :
    dictKeys ((withIdx models 0).map (fun im => ((im.2 : Str), q im.1 im.2))) = models := by
  rw [dictKeys, List.map_map]
  have hfun : (Prod.fst ∘ fun im : Nat × Str => ((im.2 : Str), q im.1 im.2)) = Prod.snd := by
    funext im
    rfl
  rw [hfun, withIdx_map_snd]

theorem mem_dictKeys_batchOf (q : Nat → Str → Option QueryResult) (models : List Str)
    (m : Str) : m ∈ dictKeys (batchOf q models) ↔ m ∈ models := by
  rw [batchOf, mem_dictKeys_dictFold, batchOf_keys_eq]
  rw [dictKeys_nil]
  simp

theorem batchOf_lookup_isSome (q : Nat → Str → Option QueryResult) (models : List Str)
    (m : Str) (h : m ∈ models) : (dictLookup (batchOf q models) m).isSome := by
  rw [← mem_dictKeys_iff_lookup]
  exact (mem_dictKeys_batchOf q models m).mpr h

theorem batchOf_lookup_nodup (q : Nat → Str → Option QueryResult) (models : List Str)
    (i : Nat) (m : Str) (hnd : models.Nodup) (hget : models.get? i = some m) :
    dictLookup (batchOf q models) m = some (q i m) := by
  rw [batchOf]
  apply dictLookup_dictFold_const
  · intro v hv
    obtain ⟨im, hmem, heq⟩ := List.mem_map.mp hv
    have him2 : im.2 = m := congrArg Prod.fst heq
    have hval : q im.1 im.2 = v := congrArg Prod.snd heq
    obtain ⟨-, hget2⟩ := mem_withIdx models 0 im hmem
    rw [Nat.sub_zero, him2] at hget2
    have hi : i < models.length := (List.get?_eq_some.mp hget).1
    have hij : i = im.1 := by
      apply List.get?_inj hi hnd
      rw [hget, hget2]
    rw [← hval, him2, ← hij]
  · rw [batchOf_keys_eq]
    exact List.get?_mem hget

theorem dictKeys_batchOf_nodup (q : Nat → Str → Option QueryResult) (models : List Str)
    (hnd : models.Nodup) : dictKeys (batchOf q models) = models := by
  rw [batchOf, dictKeys_dictFold_fresh, dictKeys_nil, List.nil_append, batchOf_keys_eq]
  · rw [batchOf_keys_eq]
    exact hnd
  · intro k _
    rw [dictKeys_nil]
    exact List.not_mem_nil k

/-! Lemmas about specifier parsing. -/

theorem isPrefixOf_append_self (l m : Str) : l.isPrefixOf (l ++ m) = true := by
  induction l with
  | nil =>
    cases m with
    | nil => rfl
    | cons a as => rfl
  | cons c cs ih => simp [List.isPrefixOf, ih]

theorem isPrefixOf_iff_exists (l l2 : Str) :
    l.isPrefixOf l2 = true ↔ ∃ u, l2 = l ++ u := by
  induction l generalizing l2 with
  | nil =>
    simp [List.isPrefixOf]
  | cons c cs ih =>
    cases l2 with
    | nil =>
      constructor
      · intro h
        exact absurd h (by simp [List.isPrefixOf])
      · rintro ⟨u, hu⟩
        exact absurd hu (by simp)
    | cons d ds =>
      have hstep : (c :: cs).isPrefixOf (d :: ds) = (c == d && cs.isPrefixOf ds) := rfl
      rw [hstep, Bool.and_eq_true, beq_iff_eq, ih]
      constructor
      · rintro ⟨hcd, u, hu⟩
        exact ⟨u, by rw [hcd, hu]; rfl⟩
      · rintro ⟨u, hu⟩
        rw [List.cons_append] at hu
        injection hu with h1 h2
        exact ⟨h1.symm, u, h2⟩

theorem ollamaTag_split : ollamaTag = "ollama".toList ++ [':'] := rfl

theorem openrouterTag_split : openrouterTag = "openrouter".toList ++ [':'] := rfl

theorem colon_cut_unique : ∀ (a b rest1 rest2 : Str), (':' ∉ a) → (':' ∉ b) →
    a ++ ':' :: rest1 = b ++ ':' :: rest2 → a = b := by
  intro a
  induction a with
  | nil =>
    intro b rest1 rest2 _ hb h
    cases b with
    | nil => rfl
    | cons d ds =>
      rw [List.nil_append, List.cons_append] at h
      injection h with h1 _
      have hin : ':' ∈ d :: ds := by
        rw [← h1]
        exact List.mem_cons_self _ _
      exact absurd hin hb
  | cons c cs ih =>
    intro b rest1 rest2 ha hb h
    cases b with
    | nil =>
      rw [List.nil_append, List.cons_append] at h
      injection h with h1 _
      have hin : ':' ∈ c :: cs := by
        rw [h1]
        exact List.mem_cons_self _ _
      exact absurd hin ha
    | cons d ds =>
      rw [List.cons_append, List.cons_append] at h
      injection h with h1 h2
      have hcs : ':' ∉ cs := fun hc => ha (List.mem_cons_of_mem _ hc)
      have hds : ':' ∉ ds := fun hc => hb (List.mem_cons_of_mem _ hc)
      rw [h1, ih ds rest1 rest2 hcs hds h2]

theorem tag_not_prefixOf_foreign (tagBase : Str) (t rest : Str)
    (hbase : ':' ∉ tagBase) (hcolon : ':' ∉ t) (hne : t ≠ tagBase) :
    (tagBase ++ [':']).isPrefixOf (t ++ ':' :: rest) = false := by
  by_contra hcontra
  have htrue : (tagBase ++ [':']).isPrefixOf (t ++ ':' :: rest) = true := by
    revert hcontra
    cases (tagBase ++ [':']).isPrefixOf (t ++ ':' :: rest) with
    | false => intro hc; exact absurd rfl hc
    | true => intro _; rfl
  obtain ⟨u, hu⟩ := (isPrefixOf_iff_exists _ _).mp htrue
  rw [List.append_assoc, List.singleton_append] at hu
  exact hne (colon_cut_unique t tagBase rest u hcolon hbase hu)

/-- C3: parse_model_spec satisfies the SpecParser contract: a specifier
tagged "ollama:" parses to ("ollama", remainder) and one tagged
"openrouter:" parses to ("openrouter", remainder), for every remainder and
every routing mode; a specifier starting with neither recognized tag fails
with the ambiguous-specifier error when the configured mode is "mixed" and
otherwise parses to (the configured mode itself, specifier unchanged). -/
theorem spec_parser_contract :
    (∀ (mode m : Str), parse_model_spec mode (ollamaTag ++ m) = .ok (ollamaName, m)) ∧
    (∀ (mode m : Str),
      parse_model_spec mode (openrouterTag ++ m) = .ok (openrouterName, m)) ∧
    (∀ (spec : Str), ollamaTag.isPrefixOf spec = false →
      openrouterTag.isPrefixOf spec = false →
      parse_model_spec mixedName spec = .error (.ambiguousSpec spec)) ∧
    (∀ (mode spec : Str), mode ≠ mixedName →
      ollamaTag.isPrefixOf spec = false →
      openrouterTag.isPrefixOf spec = false →
      parse_model_spec mode spec = .ok (mode, spec)) := by
  refine ⟨?_, ?_, ?_, ?_⟩
  · intro mode m
    have hlen : ollamaTag.length = 7 := rfl
    rw [parse_model_spec, if_pos (isPrefixOf_append_self ollamaTag m), ← hlen,
      List.drop_left]
  · intro mode m
    have hnot : ollamaTag.isPrefixOf (openrouterTag ++ m) = false := by
      rw [ollamaTag_split]
      have hsplit : openrouterTag ++ m = "openrouter".toList ++ ':' :: m := by
        rw [openrouterTag_split, List.append_assoc, List.singleton_append]
      rw [hsplit]
      exact tag_not_prefixOf_foreign "ollama".toList "openrouter".toList m
        (by decide) (by decide) (by decide)
    have hlen : openrouterTag.length = 11 := rfl
    rw [parse_model_spec, hnot, if_neg (by simp),
      if_pos (isPrefixOf_append_self openrouterTag m), ← hlen, List.drop_left]
  · intro spec h1 h2
    rw [parse_model_spec, h1, if_neg (by simp), h2, if_neg (by simp), if_pos rfl]
  · intro mode spec hmode h1 h2
    rw [parse_model_spec, h1, if_neg (by simp), h2, if_neg (by simp), if_neg hmode]

theorem spec_parser_contract_witness :
    parse_model_spec mixedName (ollamaTag ++ "llama3.1:8b".toList) =
      .ok (ollamaName, "llama3.1:8b".toList) ∧
    parse_model_spec mixedName (openrouterTag ++ "openai/gpt-4o".toList) =
      .ok (openrouterName, "openai/gpt-4o".toList) ∧
    parse_model_spec mixedName "bare-model".toList =
      .error (.ambiguousSpec "bare-model".toList) ∧
    parse_model_spec ollamaName "bare-model".toList =
      .ok (ollamaName, "bare-model".toList) :=
  ⟨spec_parser_contract.1 mixedName _,
   spec_parser_contract.2.1 mixedName _,
   spec_parser_contract.2.2.1 _ (by decide) (by decide),
   spec_parser_contract.2.2.2 _ _ (by decide) (by decide) (by decide)⟩

/-- C4: a specifier carrying an unrecognized tag, such as "foo:bar", is
treated under every routing mode exactly as a bare specifier is treated:
outside mixed mode it parses to (mode, whole specifier), and in mixed mode
it fails as ambiguous; it is never rejected for the unknown tag itself. -/
theorem unknown_tag_structural_fallback (mode t rest : Str)
    (hcolon : ':' ∉ t) (hol : t ≠ "ollama".toList) (hor : t ≠ "openrouter".toList) :
    parse_model_spec mode (t ++ ':' :: rest) =
      (if mode = mixedName then .error (.ambiguousSpec (t ++ ':' :: rest))
       else .ok (mode, t ++ ':' :: rest)) := by
  have h1 : ollamaTag.isPrefixOf (t ++ ':' :: rest) = false := by
    rw [ollamaTag_split]
    exact tag_not_prefixOf_foreign "ollama".toList t rest (by decide) hcolon hol
  have h2 : openrouterTag.isPrefixOf (t ++ ':' :: rest) = false := by
    rw [openrouterTag_split]
    exact tag_not_prefixOf_foreign "openrouter".toList t rest (by decide) hcolon hor
  rw [parse_model_spec, h1, if_neg (by simp), h2, if_neg (by simp)]

theorem unknown_tag_structural_fallback_witness :
    parse_model_spec ollamaName ("foo".toList ++ ':' :: "bar".toList) =
      (if ollamaName = mixedName
       then .error (.ambiguousSpec ("foo".toList ++ ':' :: "bar".toList))
       else .ok (ollamaName, "foo".toList ++ ':' :: "bar".toList)) :=
  unknown_tag_structural_fallback ollamaName "foo".toList "bar".toList
    (by decide) (by decide) (by decide)

/-! Adapter result extraction. -/

/-- C5 counterexample: a 200-response whose `choices[0].message` object has
no content field is a successful query for both adapters, yet the returned
non-absent result carries a null content — refuting the claim that content
is never null in a non-absent result. -/
theorem queryOne_content_null_counterexample :
    OpenRouterProvider.query_model "openai/gpt-4o".toList []
        (fun _ _ => .ok []) =
      some { content := PyVal.vnone, reasoning_details := PyVal.vnone } ∧
    OllamaProvider.query_model "llama3.1:8b".toList []
        (fun _ _ => .ok []) =
      some { content := PyVal.vnone, reasoning_details := PyVal.vnone } :=
  ⟨rfl, rfl⟩

/-- C5 amended: on every successful backend response each adapter returns a
non-absent result whose content field is read from the backend message with
`dict.get`: it equals the supplied text whenever the backend provides one,
but is null (while the result itself stays non-absent) when the message
omits content; OllamaProvider never surfaces reasoning details. -/
theorem queryOne_content_extracted (model : Str) (messages : Msgs) (respond : NetOne)
    (message : MsgDict) (h : respond model messages = .ok message) :
    OpenRouterProvider.query_model model messages respond =
      some { content := pyGet message keyContent,
             reasoning_details := pyGet message keyReasoning } ∧
    OllamaProvider.query_model model messages respond =
      some { content := pyGet message keyContent,
             reasoning_details := PyVal.vnone } ∧
    (∀ s, pyGet message keyContent = PyVal.vstr s →
      ∃ r, OpenRouterProvider.query_model model messages respond = some r ∧
        r.content = PyVal.vstr s) := by
  refine ⟨?_, ?_, ?_⟩
  · rw [OpenRouterProvider.query_model, h]
  · rw [OllamaProvider.query_model, h]
  · intro s hs
    refine ⟨_, by rw [OpenRouterProvider.query_model, h], ?_⟩
    rw [hs]

theorem queryOne_content_extracted_witness :
    OpenRouterProvider.query_model "openai/gpt-4o".toList []
        (fun _ _ => .ok [(keyContent, PyVal.vstr "hi".toList)]) =
      some { content := pyGet [(keyContent, PyVal.vstr "hi".toList)] keyContent,
             reasoning_details :=
               pyGet [(keyContent, PyVal.vstr "hi".toList)] keyReasoning } ∧
    OllamaProvider.query_model "openai/gpt-4o".toList []
        (fun _ _ => .ok [(keyContent, PyVal.vstr "hi".toList)]) =
      some { content := pyGet [(keyContent, PyVal.vstr "hi".toList)] keyContent,
             reasoning_details := PyVal.vnone } ∧
    (∀ s, pyGet [(keyContent, PyVal.vstr "hi".toList)] keyContent = PyVal.vstr s →
      ∃ r, OpenRouterProvider.query_model "openai/gpt-4o".toList []
          (fun _ _ => .ok [(keyContent, PyVal.vstr "hi".toList)]) = some r ∧
        r.content = PyVal.vstr s) :=
  queryOne_content_extracted "openai/gpt-4o".toList []
    (fun _ _ => .ok [(keyContent, PyVal.vstr "hi".toList)])
    [(keyContent, PyVal.vstr "hi".toList)] rfl

/-! Registry lifecycle lemmas. -/

theorem get_provider_cache_hit (env : Env) (st : Registry) (n : Str) (p : ProviderInst)
    (hval : ¬(n ≠ openrouterName ∧ n ≠ ollamaName))
    (hlook : dictLookup st.instances n = some p) :
    get_provider env st n = (.ok p, st) := by
  unfold get_provider
  rw [if_neg hval, hlook]

theorem get_provider_ok_valid (env : Env) (st : Registry) (n : Str) (p : ProviderInst)
    (st2 : Registry) (h : get_provider env st n = (.ok p, st2)) :
    ¬(n ≠ openrouterName ∧ n ≠ ollamaName) := by
  intro hval
  unfold get_provider at h
  rw [if_pos hval] at h
  exact absurd (congrArg Prod.fst h) (by simp)

theorem get_provider_ok_lookup (env : Env) (st : Registry) (n : Str) (p : ProviderInst)
    (st2 : Registry) (h : get_provider env st n = (.ok p, st2)) :
    dictLookup st2.instances n = some p := by
  unfold get_provider at h
  split at h
  · exact absurd (congrArg Prod.fst h) (by simp)
  · split at h
    next q hlook =>
      rw [Prod.mk.injEq] at h
      obtain ⟨h1, h2⟩ := h
      simp only [Except.ok.injEq] at h1
      rw [← h2, hlook, h1]
    next hlook =>
      split at h
      · split at h
        · exact absurd (congrArg Prod.fst h) (by simp)
        · rw [Prod.mk.injEq] at h
          obtain ⟨h1, h2⟩ := h
          simp only [Except.ok.injEq] at h1
          rw [← h2, ← h1]
          exact dictLookup_dictIns_self st.instances n _
      · rw [Prod.mk.injEq] at h
        obtain ⟨h1, h2⟩ := h
        simp only [Except.ok.injEq] at h1
        rw [← h2, ← h1]
        exact dictLookup_dictIns_self st.instances n _

theorem get_provider_ok_stable (env env2 : Env) (st st2 : Registry) (n : Str)
    (p : ProviderInst) (h : get_provider env st n = (.ok p, st2)) :
    get_provider env2 st2 n = (.ok p, st2) :=
  get_provider_cache_hit env2 st2 n p (get_provider_ok_valid env st n p st2 h)
    (get_provider_ok_lookup env st n p st2 h)

theorem get_provider_lookup_preserved (env : Env) (st : Registry) (n2 n : Str)
    (p : ProviderInst) (h : dictLookup st.instances n = some p) :
    dictLookup (get_provider env st n2).2.instances n = some p := by
  unfold get_provider
  by_cases hval : n2 ≠ openrouterName ∧ n2 ≠ ollamaName
  · rw [if_pos hval]
    exact h
  · rw [if_neg hval]
    cases hlook : dictLookup st.instances n2 with
    | some q => exact h
    | none =>
      have hne : n ≠ n2 := by
        intro hc
        rw [hc, hlook] at h
        exact Option.noConfusion h
      by_cases hor : n2 = openrouterName
      · rw [if_pos hor]
        by_cases hkey : pyFalsy env.openrouter_api_key
        · rw [if_pos hkey]
          exact h
        · rw [if_neg hkey]
          simp only []
          rw [dictLookup_dictIns_ne _ _ _ _ hne]
          exact h
      · rw [if_neg hor]
        simp only []
        rw [dictLookup_dictIns_ne _ _ _ _ hne]
        exact h

theorem get_provider_count_isSome (env : Env) (st : Registry) (n2 n : Str)
    (h : (dictLookup st.instances n).isSome) :
    (get_provider env st n2).2.constructions.count n = st.constructions.count n ∧
    ((dictLookup (get_provider env st n2).2.instances n).isSome) := by
  obtain ⟨p, hp⟩ := Option.isSome_iff_exists.mp h
  refine ⟨?_, by rw [get_provider_lookup_preserved env st n2 n p hp]; rfl⟩
  unfold get_provider
  by_cases hval : n2 ≠ openrouterName ∧ n2 ≠ ollamaName
  · rw [if_pos hval]
  · rw [if_neg hval]
    cases hlook : dictLookup st.instances n2 with
    | some q => rfl
    | none =>
      have hne : n ≠ n2 := by
        intro hc
        rw [hc, hlook] at hp
        exact Option.noConfusion hp
      by_cases hor : n2 = openrouterName
      · by_cases hkey : pyFalsy env.openrouter_api_key
        · rw [if_pos hor, if_pos hkey]
        · rw [if_pos hor, if_neg hkey]
          simp only []
          rw [List.count_append]
          simp [hne]
      · rw [if_neg hor]
        simp only []
        rw [List.count_append]
        simp [hne]

theorem get_provider_count_none (env : Env) (st : Registry) (n2 n : Str)
    (h : dictLookup st.instances n = none) :
    ((get_provider env st n2).2.constructions.count n = st.constructions.count n ∧
      dictLookup (get_provider env st n2).2.instances n = none) ∨
    ((get_provider env st n2).2.constructions.count n = st.constructions.count n + 1 ∧
      (dictLookup (get_provider env st n2).2.instances n).isSome) := by
  unfold get_provider
  by_cases hval : n2 ≠ openrouterName ∧ n2 ≠ ollamaName
  · rw [if_pos hval]
    exact Or.inl ⟨rfl, h⟩
  · rw [if_neg hval]
    cases hlook : dictLookup st.instances n2 with
    | some q => exact Or.inl ⟨rfl, h⟩
    | none =>
      by_cases heq : n = n2
      · subst heq
        by_cases hor : n = openrouterName
        · by_cases hkey : pyFalsy env.openrouter_api_key
          · rw [if_pos hor, if_pos hkey]
            exact Or.inl ⟨rfl, h⟩
          · rw [if_pos hor, if_neg hkey]
            refine Or.inr ⟨?_, ?_⟩
            · simp only []
              rw [List.count_append]
              simp
            · simp only []
              rw [dictLookup_dictIns_self]
              rfl
        · rw [if_neg hor]
          refine Or.inr ⟨?_, ?_⟩
          · simp only []
            rw [List.count_append]
            simp
          · simp only []
            rw [dictLookup_dictIns_self]
            rfl
      · by_cases hor : n2 = openrouterName
        · by_cases hkey : pyFalsy env.openrouter_api_key
          · rw [if_pos hor, if_pos hkey]
            exact Or.inl ⟨rfl, h⟩
          · rw [if_pos hor, if_neg hkey]
            refine Or.inl ⟨?_, ?_⟩
            · simp only []
              rw [List.count_append]
              simp [heq]
            · simp only []
              rw [dictLookup_dictIns_ne _ _ _ _ heq]
              exact h
        · rw [if_neg hor]
          refine Or.inl ⟨?_, ?_⟩
          · simp only []
            rw [List.count_append]
            simp [heq]
          · simp only []
            rw [dictLookup_dictIns_ne _ _ _ _ heq]
            exact h

theorem runGetProvider_cons (c : Env × Str) (rest : List (Env × Str)) (st : Registry) :
    runGetProvider (c :: rest) st =
      ((runGetProvider rest (get_provider c.1 st c.2).2).1,
       (c.2, (get_provider c.1 st c.2).1) ::
         (runGetProvider rest (get_provider c.1 st c.2).2).2) := rfl

theorem runGetProvider_count_isSome (calls : List (Env × Str)) (st : Registry) (n : Str)
    (h : (dictLookup st.instances n).isSome) :
    (runGetProvider calls st).1.constructions.count n = st.constructions.count n := by
  induction calls generalizing st with
  | nil => rfl
  | cons c rest ih =>
    obtain ⟨hcount, hsome⟩ := get_provider_count_isSome c.1 st c.2 n h
    rw [runGetProvider_cons]
    simp only []
    rw [ih _ hsome, hcount]

theorem runGetProvider_count_le (calls : List (Env × Str)) (st : Registry) (n : Str) :
    (runGetProvider calls st).1.constructions.count n ≤
      st.constructions.count n +
        (if (dictLookup st.instances n).isSome then 0 else 1) := by
  induction calls generalizing st with
  | nil =>
    split
    · exact Nat.le_add_right _ 0
    · exact Nat.le_add_right _ 1
  | cons c rest ih =>
    rw [runGetProvider_cons]
    simp only []
    by_cases h : (dictLookup st.instances n).isSome
    · obtain ⟨hcount, hsome⟩ := get_provider_count_isSome c.1 st c.2 n h
      rw [runGetProvider_count_isSome rest _ n hsome, hcount]
      simp [h]
    · have hnone : dictLookup st.instances n = none := by
        cases hl : dictLookup st.instances n with
        | none => rfl
        | some q => exact absurd (by rw [hl]; rfl) h
      rcases get_provider_count_none c.1 st c.2 n hnone with ⟨hcount, hnone2⟩ | ⟨hcount, hsome2⟩
      · have := ih (get_provider c.1 st c.2).2
        rw [hcount, hnone2] at this
        simpa [hnone] using this
      · rw [runGetProvider_count_isSome rest _ n hsome2, hcount]
        simp [hnone]

theorem runGetProvider_lookup_mono (calls : List (Env × Str)) (st : Registry) (n : Str)
    (p : ProviderInst) (h : dictLookup st.instances n = some p) :
    dictLookup (runGetProvider calls st).1.instances n = some p := by
  induction calls generalizing st with
  | nil => exact h
  | cons c rest ih =>
    rw [runGetProvider_cons]
    simp only []
    exact ih _ (get_provider_lookup_preserved c.1 st c.2 n p h)

theorem runGetProvider_ok_mem (calls : List (Env × Str)) (st : Registry) (n : Str)
    (p : ProviderInst) (h : (n, Except.ok p) ∈ (runGetProvider calls st).2) :
    dictLookup (runGetProvider calls st).1.instances n = some p := by
  induction calls generalizing st with
  | nil => exact absurd h (List.not_mem_nil _)
  | cons c rest ih =>
    obtain ⟨ce, cn⟩ := c
    rw [runGetProvider_cons] at h ⊢
    simp only [] at h ⊢
    rcases List.mem_cons.mp h with h1 | h1
    · rw [Prod.mk.injEq] at h1
      obtain ⟨hn, hr⟩ := h1
      subst hn
      have hok : get_provider ce st n = ((get_provider ce st n).1, (get_provider ce st n).2) := rfl
      rw [← hr] at hok
      have hlook := get_provider_ok_lookup ce st n p _ hok
      exact runGetProvider_lookup_mono rest _ n p hlook
    · exact ih _ h1

/-- C7: over every serialized trace of get_provider calls — the atomicity
the event loop grants the source, since get_provider holds no suspension
point, so concurrent first calls execute as some serialization — each
backend kind is constructed at most once, and any two successful calls for
the same kind return the same instance. -/
theorem registry_singleton_per_kind (calls : List (Env × Str)) :
    (∀ n : Str, (runGetProvider calls initRegistry).1.constructions.count n ≤ 1) ∧
    (∀ (n : Str) (p q : ProviderInst),
      (n, Except.ok p) ∈ (runGetProvider calls initRegistry).2 →
      (n, Except.ok q) ∈ (runGetProvider calls initRegistry).2 → p = q) := by
  constructor
  · intro n
    have h := runGetProvider_count_le calls initRegistry n
    simpa [initRegistry, dictLookup] using h
  · intro n p q hp hq
    have h1 := runGetProvider_ok_mem calls initRegistry n p hp
    have h2 := runGetProvider_ok_mem calls initRegistry n q hq
    rw [h1] at h2
    exact Option.some_inj.mp h2

theorem registry_singleton_per_kind_witness :
    ((runGetProvider
        [({ llm_provider := "ollama".toList, openrouter_api_key := none,
            ollama_base_url := "http://localhost:11434".toList }, ollamaName),
         ({ llm_provider := "ollama".toList, openrouter_api_key := none,
            ollama_base_url := "http://localhost:11434".toList }, ollamaName)]
        initRegistry).1.constructions.count ollamaName ≤ 1) ∧
    ({ uid := 0, impl := .ollama "http://localhost:11434".toList } : ProviderInst) =
      { uid := 0, impl := .ollama "http://localhost:11434".toList } :=
  ⟨(registry_singleton_per_kind _).1 ollamaName,
   (registry_singleton_per_kind
      [({ llm_provider := "ollama".toList, openrouter_api_key := none,
          ollama_base_url := "http://localhost:11434".toList }, ollamaName),
       ({ llm_provider := "ollama".toList, openrouter_api_key := none,
          ollama_base_url := "http://localhost:11434".toList }, ollamaName)]).2
      ollamaName _ _ (by decide) (by decide)⟩

/-- C9: once get_provider has succeeded for "openrouter", every later call
returns the cached instance with the registry unchanged, for every
environment current at that time — in particular one whose
OPENROUTER_API_KEY is absent — because the credential check sits on the
construction path only. -/
theorem cached_provider_skips_validation (env : Env) (st : Registry)
    (p : ProviderInst) (st2 : Registry)
    (h : get_provider env st openrouterName = (.ok p, st2)) (env2 : Env) :
    get_provider env2 st2 openrouterName = (.ok p, st2) :=
  get_provider_ok_stable env env2 st st2 openrouterName p h

theorem cached_provider_skips_validation_witness :
    get_provider
        { llm_provider := "openrouter".toList, openrouter_api_key := none,
          ollama_base_url := "u".toList }
        { instances :=
            [(openrouterName, { uid := 0, impl := .openrouter "sk-key".toList })],
          nextUid := 1, constructions := [openrouterName] }
        openrouterName =
      (.ok { uid := 0, impl := .openrouter "sk-key".toList },
       { instances :=
           [(openrouterName, { uid := 0, impl := .openrouter "sk-key".toList })],
         nextUid := 1, constructions := [openrouterName] }) :=
  cached_provider_skips_validation
    { llm_provider := "openrouter".toList, openrouter_api_key := some "sk-key".toList,
      ollama_base_url := "u".toList }
    initRegistry
    { uid := 0, impl := .openrouter "sk-key".toList }
    { instances :=
        [(openrouterName, { uid := 0, impl := .openrouter "sk-key".toList })],
      nextUid := 1, constructions := [openrouterName] }
    (by decide)
    { llm_provider := "openrouter".toList, openrouter_api_key := none,
      ollama_base_url := "u".toList }

/-! Closed form of the grouping loop. -/

/-- The provider_groups key a specifier is filed under. -/
def groupKeyOf (llm_provider : Str) (s : Str) : Str :=
  match parse_model_spec llm_provider s with
  | .ok pm => pm.1
  | .error _ => invalidKey

/-- The entry a specifier contributes to its group. -/
def groupEntryOf (llm_provider : Str) (s : Str) : Str × Option Str :=
  match parse_model_spec llm_provider s with
  | .ok pm => (s, some pm.2)
  | .error _ => (s, none)

/-- The entry list of group `g`, in input order. -/
def groupEntriesOf (llm_provider : Str) (model_specs : List Str) (g : Str) :
    List (Str × Option Str) :=
  model_specs.filterMap (fun s =>
    if groupKeyOf llm_provider s = g then some (groupEntryOf llm_provider s) else none)

theorem dictLookup_append {α : Type} (d1 d2 : List (Str × α)) (k : Str) :
    dictLookup (d1 ++ d2) k =
      match dictLookup d1 k with
      | some v => some v
      | none => dictLookup d2 k := by
  induction d1 with
  | nil => rfl
  | cons kv rest ih =>
    by_cases h : kv.1 = k
    · rw [List.cons_append, dictLookup_cons, if_pos h, dictLookup_cons, if_pos h]
    · rw [List.cons_append, dictLookup_cons, if_neg h, dictLookup_cons, if_neg h, ih]

theorem dictKeys_append {α : Type} (d1 d2 : List (Str × α)) :
    dictKeys (d1 ++ d2) = dictKeys d1 ++ dictKeys d2 := List.map_append _ _ _

theorem groupAppend_lookup (G : List (Str × List (Str × Option Str))) (k g : Str)
    (e : Str × Option Str) :
    dictLookup (groupAppend G k e) g =
      if g = k then some (((dictLookup G k).getD []) ++ [e]) else dictLookup G g := by
  unfold groupAppend
  cases hlook : dictLookup G k with
  | some l =>
    show dictLookup (dictIns G k (l ++ [e])) g = _
    by_cases hg : g = k
    · rw [if_pos hg, hg, dictLookup_dictIns_self]
      rfl
    · rw [if_neg hg, dictLookup_dictIns_ne _ _ _ _ hg]
  | none =>
    show dictLookup (G ++ [(k, [e])]) g = _
    rw [dictLookup_append]
    by_cases hg : g = k
    · rw [if_pos hg, hg, hlook]
      simp [dictLookup]
    · have hgk : ¬k = g := fun hc => hg hc.symm
      rw [if_neg hg]
      cases hl2 : dictLookup G g with
      | some v => rfl
      | none => simp [dictLookup, hgk]

theorem groupAppend_keys_nodup (G : List (Str × List (Str × Option Str))) (k : Str)
    (e : Str × Option Str) (h : (dictKeys G).Nodup) :
    (dictKeys (groupAppend G k e)).Nodup := by
  unfold groupAppend
  cases hlook : dictLookup G k with
  | some l => exact nodup_dictKeys_dictIns _ _ _ h
  | none =>
    rw [dictKeys_append]
    rw [List.nodup_append]
    refine ⟨h, List.nodup_singleton _, ?_⟩
    intro a ha hb
    rw [dictKeys] at hb
    simp only [List.map_cons, List.map_nil, List.mem_singleton] at hb
    rw [mem_dictKeys_iff_lookup, hb, hlook] at ha
    simp at ha

theorem buildGroups_append (llm_provider : Str) (specs : List Str) (s : Str) :
    buildGroups llm_provider (specs ++ [s]) =
      groupAppend (buildGroups llm_provider specs)
        (groupKeyOf llm_provider s) (groupEntryOf llm_provider s) := by
  unfold buildGroups
  rw [List.foldl_append]
  simp only [List.foldl_cons, List.foldl_nil]
  cases hp : parse_model_spec llm_provider s with
  | ok pm => rw [groupKeyOf, groupEntryOf, hp]
  | error e => rw [groupKeyOf, groupEntryOf, hp]

theorem groupEntriesOf_append (llm_provider : Str) (specs : List Str) (s : Str) (g : Str) :
    groupEntriesOf llm_provider (specs ++ [s]) g =
      groupEntriesOf llm_provider specs g ++
        (if groupKeyOf llm_provider s = g then [groupEntryOf llm_provider s] else []) := by
  unfold groupEntriesOf
  rw [List.filterMap_append]
  congr 1
  by_cases h : groupKeyOf llm_provider s = g
  · simp [h]
  · simp [h]

theorem buildGroups_lookup (llm_provider : Str) (specs : List Str) (g : Str) :
    dictLookup (buildGroups llm_provider specs) g =
      (if groupEntriesOf llm_provider specs g = [] then none
       else some (groupEntriesOf llm_provider specs g)) := by
  induction specs using List.reverseRecOn with
  | nil => rfl
  | append_singleton specs s ih =>
    rw [buildGroups_append, groupAppend_lookup, groupEntriesOf_append]
    by_cases hg : g = groupKeyOf llm_provider s
    · rw [if_pos hg, ← hg, ih, if_pos rfl]
      by_cases hE : groupEntriesOf llm_provider specs g = []
      · rw [if_pos hE, hE]
        simp
      · rw [if_neg hE, if_neg (by simp)]
        rfl
    · have hg2 : ¬groupKeyOf llm_provider s = g := fun hc => hg hc.symm
      rw [if_neg hg, ih, if_neg hg2, List.append_nil]

theorem buildGroups_keys_nodup (llm_provider : Str) (specs : List Str) :
    (dictKeys (buildGroups llm_provider specs)).Nodup := by
  induction specs using List.reverseRecOn with
  | nil => exact List.nodup_nil
  | append_singleton specs s ih =>
    rw [buildGroups_append]
    exact groupAppend_keys_nodup _ _ _ ih

theorem groupEntriesOf_sound (llm_provider : Str) (specs : List Str) (g : Str)
    (e : Str × Option Str) (h : e ∈ groupEntriesOf llm_provider specs g) :
    ∃ s ∈ specs, groupKeyOf llm_provider s = g ∧ e = groupEntryOf llm_provider s := by
  obtain ⟨s, hs, he⟩ := List.mem_filterMap.mp h
  by_cases hk : groupKeyOf llm_provider s = g
  · rw [if_pos hk] at he
    exact ⟨s, hs, hk, (Option.some_inj.mp he).symm⟩
  · rw [if_neg hk] at he
    exact absurd he (by simp)

theorem groupEntriesOf_mem (llm_provider : Str) (specs : List Str) (s : Str)
    (h : s ∈ specs) :
    groupEntryOf llm_provider s ∈
      groupEntriesOf llm_provider specs (groupKeyOf llm_provider s) :=
  List.mem_filterMap.mpr ⟨s, h, by rw [if_pos rfl]⟩

theorem groupEntryOf_fst (llm_provider : Str) (s : Str) :
    (groupEntryOf llm_provider s).1 = s := by
  unfold groupEntryOf
  cases parse_model_spec llm_provider s with
  | ok pm => rfl
  | error e => rfl

theorem groupKeyOf_of_parse_ok (llm_provider : Str) (s : Str) (pm : Str × Str)
    (h : parse_model_spec llm_provider s = .ok pm) :
    groupKeyOf llm_provider s = pm.1 := by
  unfold groupKeyOf
  rw [h]

theorem groupKeyOf_of_parse_error (llm_provider : Str) (s : Str) (e : PyErr)
    (h : parse_model_spec llm_provider s = .error e) :
    groupKeyOf llm_provider s = invalidKey := by
  unfold groupKeyOf
  rw [h]

theorem stripEntries_mem (l : List (Str × Option Str)) (sp mid : Str)
    (h : (sp, mid) ∈ stripEntries l) : (sp, some mid) ∈ l := by
  obtain ⟨e, he, heq⟩ := List.mem_filterMap.mp h
  obtain ⟨e1, e2⟩ := e
  cases e2 with
  | none => exact absurd heq (by simp)
  | some m =>
    have heq2 : (e1, m) = (sp, mid) := Option.some_inj.mp heq
    rw [Prod.mk.injEq] at heq2
    obtain ⟨h1, h2⟩ := heq2
    rw [← h1, ← h2]
    exact he

theorem stripEntries_mem_intro (l : List (Str × Option Str)) (sp mid : Str)
    (h : (sp, some mid) ∈ l) : (sp, mid) ∈ stripEntries l :=
  List.mem_filterMap.mpr ⟨(sp, some mid), h, rfl⟩

theorem stripEntries_append (l1 l2 : List (Str × Option Str)) :
    stripEntries (l1 ++ l2) = stripEntries l1 ++ stripEntries l2 :=
  List.filterMap_append _ _ _

theorem groupPairs_sound (llm_provider : Str) (specs : List Str) (p : Str)
    (sp mid : Str) (h : (sp, mid) ∈ groupPairs llm_provider specs p) :
    sp ∈ specs ∧ parse_model_spec llm_provider sp = .ok (p, mid) := by
  obtain ⟨s, hs, he⟩ := List.mem_filterMap.mp h
  cases hp : parse_model_spec llm_provider s with
  | ok pm =>
    simp only [hp] at he
    by_cases hk : pm.1 = p
    · rw [if_pos hk] at he
      rw [Option.some_inj, Prod.mk.injEq] at he
      obtain ⟨h1, h2⟩ := he
      subst h1
      refine ⟨hs, ?_⟩
      rw [hp, ← hk, ← h2]
    · rw [if_neg hk] at he
      exact absurd he (by simp)
  | error e =>
    exact absurd he (by simp only [hp]; simp)

theorem groupPairs_mem_intro (llm_provider : Str) (specs : List Str) (p : Str)
    (sp mid : Str) (hs : sp ∈ specs)
    (h : parse_model_spec llm_provider sp = .ok (p, mid)) :
    (sp, mid) ∈ groupPairs llm_provider specs p :=
  List.mem_filterMap.mpr ⟨sp, hs, by rw [h]; simp⟩

theorem stripEntries_groupEntriesOf (llm_provider : Str) (specs : List Str) (g : Str)
    (hg : g ≠ invalidKey) :
    stripEntries (groupEntriesOf llm_provider specs g) =
      groupPairs llm_provider specs g := by
  induction specs using List.reverseRecOn with
  | nil => rfl
  | append_singleton specs s ih =>
    have hgp : groupPairs llm_provider (specs ++ [s]) g =
        groupPairs llm_provider specs g ++
          (match parse_model_spec llm_provider s with
           | .ok pm => if pm.1 = g then [(s, pm.2)] else []
           | .error _ => []) := by
      unfold groupPairs
      rw [List.filterMap_append]
      congr 1
      cases hp : parse_model_spec llm_provider s with
      | ok pm =>
        by_cases hkg : pm.1 = g
        · simp only [List.filterMap_cons, List.filterMap_nil, hp, if_pos hkg]
        · simp only [List.filterMap_cons, List.filterMap_nil, hp, if_neg hkg]
      | error e =>
        simp only [List.filterMap_cons, List.filterMap_nil, hp]
    rw [groupEntriesOf_append, stripEntries_append, ih, hgp]
    congr 1
    cases hp : parse_model_spec llm_provider s with
    | ok pm =>
      have hk : groupKeyOf llm_provider s = pm.1 := groupKeyOf_of_parse_ok _ _ _ hp
      have hentry : groupEntryOf llm_provider s = (s, some pm.2) := by
        unfold groupEntryOf
        rw [hp]
      by_cases hkg : pm.1 = g
      · rw [hk, if_pos hkg, hentry]
        simp only [hp, if_pos hkg]
        rfl
      · rw [hk, if_neg hkg]
        simp only [hp, if_neg hkg]
        rfl
    | error e =>
      have hk : groupKeyOf llm_provider s = invalidKey := groupKeyOf_of_parse_error _ _ _ hp
      rw [hk, if_neg (fun hc => hg hc.symm)]
      simp only [hp]
      rfl

/-! Dispatch-loop machinery. -/

theorem dictLookup_dictFold_some {α : Type} (ps : List (Str × α)) (d : List (Str × α))
    (k : Str) (v : α) (h : dictLookup (dictFold d ps) k = some v) :
    dictLookup d k = some v ∨ (k, v) ∈ ps := by
  induction ps generalizing d with
  | nil => exact Or.inl h
  | cons kv rest ih =>
    rw [dictFold_cons] at h
    rcases ih _ h with h1 | h1
    · by_cases hk : k = kv.1
      · rw [hk, dictLookup_dictIns_self, Option.some_inj] at h1
        right
        rw [← h1, hk]
        exact List.mem_cons_self _ _
      · rw [dictLookup_dictIns_ne _ _ _ _ hk] at h1
        exact Or.inl h1
    · exact Or.inr (List.mem_cons_of_mem _ h1)

/-- Whether obtaining a provider for name `n` succeeds from the given
registry, and if so with which adapter variant. -/
def gpOkImpl (env : Env) (st : Registry) (n : Str) : Option ProviderImpl :=
  match (get_provider env st n).1 with
  | .ok p => some p.impl
  | .error _ => none

theorem gpOkImpl_of_error (env : Env) (st : Registry) (n : Str) (e : PyErr)
    (st2 : Registry) (hget : get_provider env st n = (.error e, st2)) :
    gpOkImpl env st n = none := by
  unfold gpOkImpl
  rw [hget]

theorem gpOkImpl_of_ok (env : Env) (st : Registry) (n : Str) (p : ProviderInst)
    (st2 : Registry) (hget : get_provider env st n = (.ok p, st2)) :
    gpOkImpl env st n = some p.impl := by
  unfold gpOkImpl
  rw [hget]

theorem get_provider_pair_eta (env : Env) (st : Registry) (n : Str) :
    get_provider env st n = ((get_provider env st n).1, (get_provider env st n).2) := rfl

theorem gpOkImpl_congr (env : Env) (st1 st2 : Registry) (n : Str)
    (h : dictLookup st1.instances n = dictLookup st2.instances n) :
    gpOkImpl env st1 n = gpOkImpl env st2 n := by
  unfold gpOkImpl get_provider
  by_cases hval : n ≠ openrouterName ∧ n ≠ ollamaName
  · rw [if_pos hval, if_pos hval]
  · rw [if_neg hval, if_neg hval, h]
    cases hlook : dictLookup st2.instances n with
    | some p => rfl
    | none =>
      by_cases hor : n = openrouterName
      · by_cases hkey : pyFalsy env.openrouter_api_key
        · rw [if_pos hor, if_pos hor, if_pos hkey, if_pos hkey]
        · rw [if_pos hor, if_pos hor, if_neg hkey, if_neg hkey]
      · rw [if_neg hor, if_neg hor]

theorem get_provider_lookup_other (env : Env) (st : Registry) (n2 n : Str)
    (hne : n ≠ n2) :
    dictLookup (get_provider env st n2).2.instances n = dictLookup st.instances n := by
  unfold get_provider
  by_cases hval : n2 ≠ openrouterName ∧ n2 ≠ ollamaName
  · rw [if_pos hval]
  · rw [if_neg hval]
    cases hlook : dictLookup st.instances n2 with
    | some p => rfl
    | none =>
      by_cases hor : n2 = openrouterName
      · by_cases hkey : pyFalsy env.openrouter_api_key
        · rw [if_pos hor, if_pos hkey]
        · rw [if_pos hor, if_neg hkey]
          exact dictLookup_dictIns_ne _ _ _ _ hne
      · rw [if_neg hor]
        exact dictLookup_dictIns_ne _ _ _ _ hne

theorem groupStep_invalid (env : Env) (acc : ResDict × List Task × Registry)
    (g : Str × List (Str × Option Str)) (h : g.1 = invalidKey) :
    groupStep env acc g =
      (dictFold acc.1 (g.2.map (fun sm => (sm.1, (none : Option QueryResult)))),
       acc.2.1, acc.2.2) := by
  unfold groupStep
  rw [if_pos h]

theorem groupStep_error (env : Env) (acc : ResDict × List Task × Registry)
    (g : Str × List (Str × Option Str)) (e : PyErr) (st2 : Registry)
    (hinv : ¬g.1 = invalidKey)
    (hget : get_provider env acc.2.2 g.1 = (.error e, st2)) :
    groupStep env acc g =
      (dictFold acc.1 (g.2.map (fun sm => (sm.1, (none : Option QueryResult)))),
       acc.2.1, st2) := by
  unfold groupStep
  rw [if_neg hinv, hget]

theorem groupStep_ok (env : Env) (acc : ResDict × List Task × Registry)
    (g : Str × List (Str × Option Str)) (p : ProviderInst) (st2 : Registry)
    (hinv : ¬g.1 = invalidKey)
    (hget : get_provider env acc.2.2 g.1 = (.ok p, st2)) :
    groupStep env acc g =
      (acc.1,
       acc.2.1 ++ [{ name := g.1, prov := p, pairs := stripEntries g.2 }], st2) := by
  unfold groupStep
  rw [if_neg hinv, hget]

/-- A group the dispatch loop fails wholesale relative to registry `st`:
the invalid group, or one whose provider cannot be obtained. -/
def failedGroup (env : Env) (st : Registry) (gname : Str) : Prop :=
  gname = invalidKey ∨ gpOkImpl env st gname = none

theorem dictFold_lookup_isSome_mono {α : Type} (ps d : List (Str × α)) (sp : Str)
    (h : (dictLookup d sp).isSome) : (dictLookup (dictFold d ps) sp).isSome := by
  rw [← mem_dictKeys_iff_lookup] at h ⊢
  rw [mem_dictKeys_dictFold]
  exact Or.inl h

theorem groupsFold_values_none (env : Env) (groups : List (Str × List (Str × Option Str))) :
    ∀ (pre0 : ResDict) (tasks0 : List Task) (stc : Registry),
      (∀ sp v, dictLookup pre0 sp = some v → v = none) →
      ∀ sp v,
        dictLookup (groups.foldl (groupStep env) (pre0, tasks0, stc)).1 sp = some v →
        v = none := by
  induction groups with
  | nil =>
    intro pre0 tasks0 stc hpre sp v h
    exact hpre sp v h
  | cons g rest ih =>
    intro pre0 tasks0 stc hpre sp v h
    rw [List.foldl_cons] at h
    have hstep : ∀ (d2 : ResDict) (t2 : List Task) (s2 : Registry),
        groupStep env (pre0, tasks0, stc) g = (d2, t2, s2) →
        (∀ sp2 v2, dictLookup d2 sp2 = some v2 → v2 = none) := by
      intro d2 t2 s2 heq sp2 v2 h2
      by_cases hinv : g.1 = invalidKey
      · rw [groupStep_invalid env _ g hinv, Prod.mk.injEq] at heq
        rw [← heq.1] at h2
        rcases dictLookup_dictFold_some _ _ _ _ h2 with h3 | h3
        · exact hpre sp2 v2 h3
        · obtain ⟨e, _, heq2⟩ := List.mem_map.mp h3
          exact (congrArg Prod.snd heq2).symm
      · have heta := get_provider_pair_eta env stc g.1
        cases hres : (get_provider env stc g.1).1 with
        | error err =>
          rw [hres] at heta
          rw [groupStep_error env _ g err _ hinv heta, Prod.mk.injEq] at heq
          rw [← heq.1] at h2
          rcases dictLookup_dictFold_some _ _ _ _ h2 with h3 | h3
          · exact hpre sp2 v2 h3
          · obtain ⟨e, _, heq2⟩ := List.mem_map.mp h3
            exact (congrArg Prod.snd heq2).symm
        | ok p =>
          rw [hres] at heta
          rw [groupStep_ok env _ g p _ hinv heta, Prod.mk.injEq] at heq
          rw [← heq.1] at h2
          exact hpre sp2 v2 h2
    exact ih (groupStep env (pre0, tasks0, stc) g).1
      (groupStep env (pre0, tasks0, stc) g).2.1
      (groupStep env (pre0, tasks0, stc) g).2.2
      (hstep _ _ _ rfl) sp v h

theorem groupsFold_isSome_mono (env : Env) (groups : List (Str × List (Str × Option Str))) :
    ∀ (pre0 : ResDict) (tasks0 : List Task) (stc : Registry) (sp : Str),
      (dictLookup pre0 sp).isSome →
      (dictLookup (groups.foldl (groupStep env) (pre0, tasks0, stc)).1 sp).isSome := by
  induction groups with
  | nil =>
    intro pre0 tasks0 stc sp h
    exact h
  | cons g rest ih =>
    intro pre0 tasks0 stc sp h
    rw [List.foldl_cons]
    by_cases hinv : g.1 = invalidKey
    · rw [groupStep_invalid env _ g hinv]
      exact ih _ _ _ sp (dictFold_lookup_isSome_mono _ _ _ h)
    · have heta := get_provider_pair_eta env stc g.1
      cases hres : (get_provider env stc g.1).1 with
      | error err =>
        rw [hres] at heta
        rw [groupStep_error env _ g err _ hinv heta]
        exact ih _ _ _ sp (dictFold_lookup_isSome_mono _ _ _ h)
      | ok p =>
        rw [hres] at heta
        rw [groupStep_ok env _ g p _ hinv heta]
        exact ih _ _ _ sp h

theorem groupsFold_nodup (env : Env) (groups : List (Str × List (Str × Option Str))) :
    ∀ (pre0 : ResDict) (tasks0 : List Task) (stc : Registry),
      (dictKeys pre0).Nodup →
      (dictKeys (groups.foldl (groupStep env) (pre0, tasks0, stc)).1).Nodup := by
  induction groups with
  | nil =>
    intro pre0 tasks0 stc h
    exact h
  | cons g rest ih =>
    intro pre0 tasks0 stc h
    rw [List.foldl_cons]
    by_cases hinv : g.1 = invalidKey
    · rw [groupStep_invalid env _ g hinv]
      exact ih _ _ _ (nodup_dictKeys_dictFold _ _ h)
    · have heta := get_provider_pair_eta env stc g.1
      cases hres : (get_provider env stc g.1).1 with
      | error err =>
        rw [hres] at heta
        rw [groupStep_error env _ g err _ hinv heta]
        exact ih _ _ _ (nodup_dictKeys_dictFold _ _ h)
      | ok p =>
        rw [hres] at heta
        rw [groupStep_ok env _ g p _ hinv heta]
        exact ih _ _ _ h

theorem groupsFold_isSome_sources (env : Env)
    (groups : List (Str × List (Str × Option Str))) :
    ∀ (pre0 : ResDict) (tasks0 : List Task) (stc : Registry) (sp : Str),
      (dictLookup (groups.foldl (groupStep env) (pre0, tasks0, stc)).1 sp).isSome →
      (dictLookup pre0 sp).isSome ∨
        ∃ g ∈ groups, sp ∈ g.2.map Prod.fst := by
  induction groups with
  | nil =>
    intro pre0 tasks0 stc sp h
    exact Or.inl h
  | cons g rest ih =>
    intro pre0 tasks0 stc sp h
    rw [List.foldl_cons] at h
    have hfromFold : ∀ (ps : List (Str × Option QueryResult)),
        dictKeys ps = g.2.map Prod.fst →
        (dictLookup (dictFold pre0 ps) sp).isSome →
        (dictLookup pre0 sp).isSome ∨ ∃ g2 ∈ g :: rest, sp ∈ g2.2.map Prod.fst := by
      intro ps hkeys h2
      rw [← mem_dictKeys_iff_lookup, mem_dictKeys_dictFold, hkeys] at h2
      rcases h2 with h2 | h2
      · exact Or.inl ((mem_dictKeys_iff_lookup _ _).mp h2)
      · exact Or.inr ⟨g, List.mem_cons_self _ _, h2⟩
    by_cases hinv : g.1 = invalidKey
    · rw [groupStep_invalid env _ g hinv] at h
      rcases ih _ _ _ sp h with h1 | h1
      · refine hfromFold _ ?_ h1
        rw [dictKeys, List.map_map]
        rfl
      · obtain ⟨g2, hg2, hsp⟩ := h1
        exact Or.inr ⟨g2, List.mem_cons_of_mem _ hg2, hsp⟩
    · have heta := get_provider_pair_eta env stc g.1
      cases hres : (get_provider env stc g.1).1 with
      | error err =>
        rw [hres] at heta
        rw [groupStep_error env _ g err _ hinv heta] at h
        rcases ih _ _ _ sp h with h1 | h1
        · refine hfromFold _ ?_ h1
          rw [dictKeys, List.map_map]
          rfl
        · obtain ⟨g2, hg2, hsp⟩ := h1
          exact Or.inr ⟨g2, List.mem_cons_of_mem _ hg2, hsp⟩
      | ok p =>
        rw [hres] at heta
        rw [groupStep_ok env _ g p _ hinv heta] at h
        rcases ih _ _ _ sp h with h1 | h1
        · exact Or.inl h1
        · obtain ⟨g2, hg2, hsp⟩ := h1
          exact Or.inr ⟨g2, List.mem_cons_of_mem _ hg2, hsp⟩

theorem noneFold_values_none (pre0 : ResDict) (l : List (Str × Option Str))
    (hpre : ∀ sp v, dictLookup pre0 sp = some v → v = none) :
    ∀ sp v,
      dictLookup (dictFold pre0
        (l.map (fun sm => (sm.1, (none : Option QueryResult))))) sp = some v →
      v = none := by
  intro sp v h
  rcases dictLookup_dictFold_some _ _ _ _ h with h1 | h1
  · exact hpre sp v h1
  · obtain ⟨e2, _, heq2⟩ := List.mem_map.mp h1
    exact (congrArg Prod.snd heq2).symm

theorem groupsFold_persist_none (env : Env) (rest : List (Str × List (Str × Option Str)))
    (pre1 : ResDict) (tasks1 : List Task) (stc1 : Registry)
    (hpreNone : ∀ sp v, dictLookup pre1 sp = some v → v = none) (sp : Str)
    (h : dictLookup pre1 sp = some none) :
    dictLookup (rest.foldl (groupStep env) (pre1, tasks1, stc1)).1 sp =
      some (none : Option QueryResult) := by
  have hisSome := groupsFold_isSome_mono env rest pre1 tasks1 stc1 sp (by rw [h]; rfl)
  obtain ⟨v, hv⟩ := Option.isSome_iff_exists.mp hisSome
  have hvn := groupsFold_values_none env rest pre1 tasks1 stc1 hpreNone sp v hv
  rw [hv, hvn]

theorem noneFold_writes (pre0 : ResDict) (l : List (Str × Option Str))
    (e : Str × Option Str) (he : e ∈ l) :
    dictLookup (dictFold pre0
      (l.map (fun sm => (sm.1, (none : Option QueryResult))))) e.1 =
        some (none : Option QueryResult) := by
  apply dictLookup_dictFold_const
  · intro v hv
    obtain ⟨e2, _, heq2⟩ := List.mem_map.mp hv
    exact (congrArg Prod.snd heq2).symm
  · rw [dictKeys, List.map_map]
    exact List.mem_map.mpr ⟨e, he, rfl⟩

theorem groupsFold_failed_none (env : Env) (st : Registry)
    (groups : List (Str × List (Str × Option Str))) :
    ∀ (pre0 : ResDict) (tasks0 : List Task) (stc : Registry),
      (dictKeys groups).Nodup →
      (∀ g ∈ groups, dictLookup stc.instances g.1 = dictLookup st.instances g.1) →
      (∀ sp v, dictLookup pre0 sp = some v → v = none) →
      ∀ g ∈ groups, failedGroup env st g.1 →
        ∀ e ∈ g.2,
          dictLookup (groups.foldl (groupStep env) (pre0, tasks0, stc)).1 e.1 =
            some (none : Option QueryResult) := by
  induction groups with
  | nil =>
    intro pre0 tasks0 stc _ _ _ g hg
    exact absurd hg (List.not_mem_nil _)
  | cons g0 rest ih =>
    intro pre0 tasks0 stc hnd hagree hpre g hg hfail e he
    have hndr : (dictKeys rest).Nodup := (List.nodup_cons.mp (by
      rw [dictKeys_cons] at hnd; exact hnd)).2
    have hg0r : g0.1 ∉ dictKeys rest := (List.nodup_cons.mp (by
      rw [dictKeys_cons] at hnd; exact hnd)).1
    rw [List.foldl_cons]
    rcases List.mem_cons.mp hg with hg1 | hg1
    · subst hg1
      by_cases hinv : g.1 = invalidKey
      · rw [groupStep_invalid env _ g hinv]
        exact groupsFold_persist_none env rest _ tasks0 stc
          (noneFold_values_none pre0 g.2 hpre) e.1 (noneFold_writes pre0 g.2 e he)
      · have hfailst : gpOkImpl env st g.1 = none := by
          rcases hfail with h1 | h1
          · exact absurd h1 hinv
          · exact h1
        have hfailstc : gpOkImpl env stc g.1 = none := by
          rw [gpOkImpl_congr env stc st g.1 (hagree g (List.mem_cons_self _ _))]
          exact hfailst
        have heta := get_provider_pair_eta env stc g.1
        cases hres : (get_provider env stc g.1).1 with
        | ok p =>
          rw [hres] at heta
          rw [gpOkImpl_of_ok env stc g.1 p _ heta] at hfailstc
          exact Option.noConfusion hfailstc
        | error err =>
          rw [hres] at heta
          rw [groupStep_error env _ g err _ hinv heta]
          exact groupsFold_persist_none env rest _ tasks0 _
            (noneFold_values_none pre0 g.2 hpre) e.1 (noneFold_writes pre0 g.2 e he)
    · have hagree2 : ∀ (reg : Registry),
          (∀ g2 ∈ rest, dictLookup reg.instances g2.1 = dictLookup stc.instances g2.1) →
          ∀ g2 ∈ rest, dictLookup reg.instances g2.1 = dictLookup st.instances g2.1 := by
        intro reg hr g2 hg2
        rw [hr g2 hg2]
        exact hagree g2 (List.mem_cons_of_mem _ hg2)
      by_cases hinv : g0.1 = invalidKey
      · rw [groupStep_invalid env _ g0 hinv]
        exact ih _ tasks0 stc hndr
          (fun g2 hg2 => hagree g2 (List.mem_cons_of_mem _ hg2))
          (noneFold_values_none pre0 g0.2 hpre) g hg1 hfail e he
      · have heta := get_provider_pair_eta env stc g0.1
        cases hres : (get_provider env stc g0.1).1 with
        | error err =>
          rw [hres] at heta
          rw [groupStep_error env _ g0 err _ hinv heta]
          refine ih _ tasks0 _ hndr ?_ (noneFold_values_none pre0 g0.2 hpre) g hg1 hfail e he
          exact hagree2 _ (fun g2 hg2 => get_provider_lookup_other env stc g0.1 g2.1
            (fun hc => hg0r (hc ▸ (List.mem_map.mpr ⟨g2, hg2, rfl⟩))))
        | ok p =>
          rw [hres] at heta
          rw [groupStep_ok env _ g0 p _ hinv heta]
          refine ih pre0 _ _ hndr ?_ hpre g hg1 hfail e he
          exact hagree2 _ (fun g2 hg2 => get_provider_lookup_other env stc g0.1 g2.1
            (fun hc => hg0r (hc ▸ (List.mem_map.mpr ⟨g2, hg2, rfl⟩))))

theorem groupsFold_tasks (env : Env) (st : Registry)
    (groups : List (Str × List (Str × Option Str))) :
    ∀ (pre0 : ResDict) (tasks0 : List Task) (stc : Registry),
      (dictKeys groups).Nodup →
      (∀ g ∈ groups, dictLookup stc.instances g.1 = dictLookup st.instances g.1) →
      ∃ newTasks,
        (groups.foldl (groupStep env) (pre0, tasks0, stc)).2.1 = tasks0 ++ newTasks ∧
        (∀ t ∈ newTasks, ∃ g, g ∈ groups ∧ t.name = g.1 ∧ g.1 ≠ invalidKey ∧
          t.pairs = stripEntries g.2 ∧ gpOkImpl env st g.1 = some t.prov.impl) ∧
        (∀ g ∈ groups, g.1 ≠ invalidKey → gpOkImpl env st g.1 ≠ none →
          ∃ t ∈ newTasks, t.name = g.1 ∧ t.pairs = stripEntries g.2) ∧
        (newTasks.map Task.name).Nodup := by
  induction groups with
  | nil =>
    intro pre0 tasks0 stc _ _
    refine ⟨[], by simp, ?_, ?_, List.nodup_nil⟩
    · intro t ht
      exact absurd ht (List.not_mem_nil _)
    · intro g hg
      exact absurd hg (List.not_mem_nil _)
  | cons g0 rest ih =>
    intro pre0 tasks0 stc hnd hagree
    have hndr : (dictKeys rest).Nodup := (List.nodup_cons.mp (by
      rw [dictKeys_cons] at hnd; exact hnd)).2
    have hg0r : g0.1 ∉ dictKeys rest := (List.nodup_cons.mp (by
      rw [dictKeys_cons] at hnd; exact hnd)).1
    have hagree0 : dictLookup stc.instances g0.1 = dictLookup st.instances g0.1 :=
      hagree g0 (List.mem_cons_self _ _)
    rw [List.foldl_cons]
    by_cases hinv : g0.1 = invalidKey
    · rw [groupStep_invalid env _ g0 hinv]
      obtain ⟨nt, heq, hfwd, hrev, hndnt⟩ := ih _ tasks0 stc hndr
        (fun g2 hg2 => hagree g2 (List.mem_cons_of_mem _ hg2))
      refine ⟨nt, heq, ?_, ?_, hndnt⟩
      · intro t ht
        obtain ⟨g, hgmem, hrest⟩ := hfwd t ht
        exact ⟨g, List.mem_cons_of_mem _ hgmem, hrest⟩
      · intro g hg hginv hgok
        rcases List.mem_cons.mp hg with hg1 | hg1
        · exact absurd (hg1 ▸ hinv) hginv
        · exact hrev g hg1 hginv hgok
    · have heta := get_provider_pair_eta env stc g0.1
      cases hres : (get_provider env stc g0.1).1 with
      | error err =>
        rw [hres] at heta
        rw [groupStep_error env _ g0 err _ hinv heta]
        have hagreeR : ∀ g2 ∈ rest,
            dictLookup (get_provider env stc g0.1).2.instances g2.1 =
              dictLookup st.instances g2.1 := by
          intro g2 hg2
          rw [get_provider_lookup_other env stc g0.1 g2.1
            (fun hc => hg0r (hc ▸ (List.mem_map.mpr ⟨g2, hg2, rfl⟩)))]
          exact hagree g2 (List.mem_cons_of_mem _ hg2)
        obtain ⟨nt, heq, hfwd, hrev, hndnt⟩ := ih _ tasks0 _ hndr hagreeR
        refine ⟨nt, heq, ?_, ?_, hndnt⟩
        · intro t ht
          obtain ⟨g, hgmem, hrest⟩ := hfwd t ht
          exact ⟨g, List.mem_cons_of_mem _ hgmem, hrest⟩
        · intro g hg hginv hgok
          rcases List.mem_cons.mp hg with hg1 | hg1
          · subst hg1
            have : gpOkImpl env st g.1 = none := by
              rw [← gpOkImpl_congr env stc st g.1 hagree0]
              exact gpOkImpl_of_error env stc g.1 err _ heta
            exact absurd this hgok
          · exact hrev g hg1 hginv hgok
      | ok p =>
        rw [hres] at heta
        rw [groupStep_ok env _ g0 p _ hinv heta]
        have hagreeR : ∀ g2 ∈ rest,
            dictLookup (get_provider env stc g0.1).2.instances g2.1 =
              dictLookup st.instances g2.1 := by
          intro g2 hg2
          rw [get_provider_lookup_other env stc g0.1 g2.1
            (fun hc => hg0r (hc ▸ (List.mem_map.mpr ⟨g2, hg2, rfl⟩)))]
          exact hagree g2 (List.mem_cons_of_mem _ hg2)
        obtain ⟨nt, heq, hfwd, hrev, hndnt⟩ := ih pre0
          (tasks0 ++ [{ name := g0.1, prov := p, pairs := stripEntries g0.2 }]) _
          hndr hagreeR
        have himpl : gpOkImpl env st g0.1 = some p.impl := by
          rw [← gpOkImpl_congr env stc st g0.1 hagree0]
          exact gpOkImpl_of_ok env stc g0.1 p _ heta
        refine ⟨{ name := g0.1, prov := p, pairs := stripEntries g0.2 } :: nt, ?_, ?_, ?_, ?_⟩
        · rw [heq, List.append_assoc, List.singleton_append]
        · intro t ht
          rcases List.mem_cons.mp ht with ht1 | ht1
          · exact ⟨g0, List.mem_cons_self _ _, by rw [ht1], hinv, by rw [ht1], by
              rw [ht1]
              exact himpl⟩
          · obtain ⟨g, hgmem, hrest⟩ := hfwd t ht1
            exact ⟨g, List.mem_cons_of_mem _ hgmem, hrest⟩
        · intro g hg hginv hgok
          rcases List.mem_cons.mp hg with hg1 | hg1
          · subst hg1
            exact ⟨_, List.mem_cons_self _ _, rfl, rfl⟩
          · obtain ⟨t, htm, htp⟩ := hrev g hg1 hginv hgok
            exact ⟨t, List.mem_cons_of_mem _ htm, htp⟩
        · rw [List.map_cons]
          rw [List.nodup_cons]
          refine ⟨?_, hndnt⟩
          intro hc
          obtain ⟨t, htm, htn⟩ := List.mem_map.mp hc
          obtain ⟨g, hgmem, hname, _, _, _⟩ := hfwd t htm
          apply hg0r
          have htn2 : t.name = g0.1 := htn
          rw [← htn2, hname]
          exact List.mem_map.mpr ⟨g, hgmem, rfl⟩

theorem mapM_ok_of_forall {α β : Type} (f : α → Except PyErr β) (l : List α)
    (h : ∀ x ∈ l, ∃ y, f x = .ok y) :
    ∃ ys, l.mapM f = .ok ys ∧ List.Forall₂ (fun x y => f x = .ok y) l ys := by
  induction l with
  | nil => exact ⟨[], rfl, List.Forall₂.nil⟩
  | cons a as ih =>
    obtain ⟨y, hy⟩ := h a (List.mem_cons_self _ _)
    obtain ⟨ys, hys, hfa⟩ := ih (fun x hx => h x (List.mem_cons_of_mem _ hx))
    refine ⟨y :: ys, ?_, List.Forall₂.cons hy hfa⟩
    rw [List.mapM_cons, hy, hys]
    rfl

theorem mapM_eq_ok_map {α β : Type} (f : α → Except PyErr β) (g : α → β) (l : List α)
    (h : ∀ x ∈ l, f x = .ok (g x)) : l.mapM f = .ok (l.map g) := by
  induction l with
  | nil => rfl
  | cons a as ih =>
    rw [List.mapM_cons, h a (List.mem_cons_self _ _),
      ih (fun x hx => h x (List.mem_cons_of_mem _ hx)), List.map_cons]
    rfl

theorem impl_qmp_lookup_isSome (impl : ProviderImpl) (net : NetBatch) (messages : Msgs)
    (models : List Str) (m : Str) (h : m ∈ models) :
    (dictLookup (impl.query_models_parallel net messages models) m).isSome := by
  cases impl with
  | openrouter key =>
    exact batchOf_lookup_isSome
      (fun i m2 => OpenRouterProvider.query_model m2 messages (net i)) models m h
  | ollama b =>
    exact batchOf_lookup_isSome
      (fun i m2 => OllamaProvider.query_model m2 messages (net i)) models m h

theorem query_provider_batch_char (messages : Msgs) (net : NetBatch) (t : Task) :
    ∃ d, query_provider_batch messages net t = .ok d ∧
      (dictKeys d).Nodup ∧
      (∀ sp, sp ∈ dictKeys d ↔ sp ∈ t.pairs.map Prod.fst) ∧
      ((∀ s m1 m2, (s, m1) ∈ t.pairs → (s, m2) ∈ t.pairs → m1 = m2) →
        ∀ sp mid, (sp, mid) ∈ t.pairs →
          dictLookup d sp =
            some ((dictLookup (t.prov.impl.query_models_parallel net messages
              (t.pairs.map Prod.snd)) mid).getD none)) := by
  have hok : ∀ sm ∈ t.pairs,
      (fun sm : Str × Str =>
        (dictSub (t.prov.impl.query_models_parallel net messages
          (t.pairs.map Prod.snd)) sm.2).map (fun r => (sm.1, r))) sm =
      .ok ((fun sm : Str × Str => (sm.1,
        (dictLookup (t.prov.impl.query_models_parallel net messages
          (t.pairs.map Prod.snd)) sm.2).getD none)) sm) := by
    intro sm hm
    have hsome := impl_qmp_lookup_isSome t.prov.impl net messages (t.pairs.map Prod.snd)
      sm.2 (List.mem_map.mpr ⟨sm, hm, rfl⟩)
    obtain ⟨r, hr⟩ := Option.isSome_iff_exists.mp hsome
    show (dictSub (t.prov.impl.query_models_parallel net messages
        (t.pairs.map Prod.snd)) sm.2).map (fun r => (sm.1, r)) =
      .ok (sm.1, (dictLookup (t.prov.impl.query_models_parallel net messages
        (t.pairs.map Prod.snd)) sm.2).getD none)
    unfold dictSub
    rw [hr]
    rfl
  have hmap := mapM_eq_ok_map _ _ t.pairs hok
  refine ⟨dictFold [] (t.pairs.map (fun sm : Str × Str => (sm.1,
      (dictLookup (t.prov.impl.query_models_parallel net messages
        (t.pairs.map Prod.snd)) sm.2).getD none))), ?_, ?_, ?_, ?_⟩
  · unfold query_provider_batch
    rw [hmap]
    rfl
  · exact nodup_dictKeys_dictFold _ _ List.nodup_nil
  · intro sp
    rw [mem_dictKeys_dictFold]
    simp only [dictKeys, List.map_map, List.map_nil]
    constructor
    · rintro (h1 | h1)
      · exact absurd h1 (List.not_mem_nil _)
      · obtain ⟨sm, hm, heq⟩ := List.mem_map.mp h1
        exact List.mem_map.mpr ⟨sm, hm, heq⟩
    · intro h1
      right
      obtain ⟨sm, hm, heq⟩ := List.mem_map.mp h1
      exact List.mem_map.mpr ⟨sm, hm, heq⟩
  · intro hfun sp mid hmem
    apply dictLookup_dictFold_const
    · intro v hv
      obtain ⟨sm, hm, heq⟩ := List.mem_map.mp hv
      have hsp : sm.1 = sp := congrArg Prod.fst heq
      have hv2 : (dictLookup (t.prov.impl.query_models_parallel net messages
          (t.pairs.map Prod.snd)) sm.2).getD none = v := congrArg Prod.snd heq
      have hsm : (sp, sm.2) ∈ t.pairs := by
        rw [← hsp]
        exact hm
      rw [← hv2, hfun sp sm.2 mid hsm hmem]
    · simp only [dictKeys, List.map_map]
      exact List.mem_map.mpr ⟨(sp, mid), hmem, rfl⟩

theorem merge_lookup_not_mem (dicts : List ResDict) :
    ∀ (pre : ResDict) (sp : Str),
      (∀ d2 ∈ dicts, sp ∉ dictKeys d2) →
      dictLookup (dicts.foldl dictFold pre) sp = dictLookup pre sp := by
  induction dicts with
  | nil =>
    intro pre sp _
    rfl
  | cons d0 rest ih =>
    intro pre sp h
    rw [List.foldl_cons, ih _ sp (fun d2 hd2 => h d2 (List.mem_cons_of_mem _ hd2)),
      dictLookup_dictFold_not_mem _ _ _ (h d0 (List.mem_cons_self _ _))]

theorem merge_keys (dicts : List ResDict) :
    ∀ (pre : ResDict) (sp : Str),
      sp ∈ dictKeys (dicts.foldl dictFold pre) ↔
        sp ∈ dictKeys pre ∨ ∃ d2 ∈ dicts, sp ∈ dictKeys d2 := by
  induction dicts with
  | nil =>
    intro pre sp
    simp
  | cons d0 rest ih =>
    intro pre sp
    rw [List.foldl_cons, ih, mem_dictKeys_dictFold]
    constructor
    · rintro (⟨h | h⟩ | h)
      · exact Or.inl h
      · exact Or.inr ⟨d0, List.mem_cons_self _ _, h⟩
      · obtain ⟨d2, hd2, hsp⟩ := h
        exact Or.inr ⟨d2, List.mem_cons_of_mem _ hd2, hsp⟩
    · rintro (h | ⟨d2, hd2, hsp⟩)
      · exact Or.inl (Or.inl h)
      · rcases List.mem_cons.mp hd2 with h1 | h1
        · exact Or.inl (Or.inr (h1 ▸ hsp))
        · exact Or.inr ⟨d2, h1, hsp⟩

theorem merge_nodup (dicts : List ResDict) :
    ∀ (pre : ResDict), (dictKeys pre).Nodup →
      (dictKeys (dicts.foldl dictFold pre)).Nodup := by
  induction dicts with
  | nil =>
    intro pre h
    exact h
  | cons d0 rest ih =>
    intro pre h
    rw [List.foldl_cons]
    exact ih _ (nodup_dictKeys_dictFold _ _ h)

theorem merge_lookup_of_unique (dicts : List ResDict) :
    ∀ (pre : ResDict) (dmid : ResDict) (sp : Str) (v : Option QueryResult),
      dmid ∈ dicts →
      (dictKeys dmid).Nodup →
      dictLookup dmid sp = some v →
      (∀ d2 ∈ dicts, d2 ≠ dmid → sp ∉ dictKeys d2) →
      (∀ d2 ∈ dicts, d2 = dmid → ∀ v2, dictLookup d2 sp = some v2 → v2 = v) →
      dictLookup (dicts.foldl dictFold pre) sp = some v := by
  induction dicts with
  | nil =>
    intro pre dmid sp v hmem
    exact absurd hmem (List.not_mem_nil _)
  | cons d0 rest ih =>
    intro pre dmid sp v hmem hnd hlook hothers hsame
    rw [List.foldl_cons]
    by_cases hsp : ∃ d2 ∈ rest, sp ∈ dictKeys d2
    · obtain ⟨d2, hd2, hspd2⟩ := hsp
      have hd2mid : d2 = dmid := by
        by_contra hc
        exact hothers d2 (List.mem_cons_of_mem _ hd2) hc hspd2
      subst hd2mid
      exact ih _ d2 sp v hd2 hnd hlook
        (fun d3 hd3 hne => hothers d3 (List.mem_cons_of_mem _ hd3) hne)
        (fun d3 hd3 heq => hsame d3 (List.mem_cons_of_mem _ hd3) heq)
    · push_neg at hsp
      have hnorest : ∀ d2 ∈ rest, sp ∉ dictKeys d2 := hsp
      rw [merge_lookup_not_mem rest _ sp hnorest]
      rcases List.mem_cons.mp hmem with h0 | h0
      · subst h0
        apply dictLookup_dictFold_const
        · intro v2 hv2
          exact hsame dmid (List.mem_cons_self _ _) rfl v2
            (dictLookup_eq_of_nodup_mem _ _ _ hnd hv2)
        · rw [mem_dictKeys_iff_lookup, hlook]
          rfl
      · exact absurd (hnorest dmid h0)
          (by rw [mem_dictKeys_iff_lookup, hlook]; simp)

theorem backfill_preserves (model_specs : List Str) :
    ∀ (d : ResDict) (sp : Str) (v : Option QueryResult),
      dictLookup d sp = some v →
      dictLookup (backfill d model_specs) sp = some v := by
  induction model_specs with
  | nil =>
    intro d sp v h
    exact h
  | cons s rest ih =>
    intro d sp v h
    unfold backfill
    rw [List.foldl_cons]
    by_cases hs : (dictLookup d s).isSome
    · rw [if_pos hs]
      exact ih d sp v h
    · rw [if_neg hs]
      apply ih
      by_cases hsp : sp = s
      · subst hsp
        rw [h] at hs
        exact absurd rfl hs
      · rw [dictLookup_dictIns_ne _ _ _ _ hsp]
        exact h

theorem backfill_isSome (model_specs : List Str) :
    ∀ (d : ResDict) (sp : Str), sp ∈ model_specs →
      (dictLookup (backfill d model_specs) sp).isSome := by
  induction model_specs with
  | nil =>
    intro d sp h
    exact absurd h (List.not_mem_nil _)
  | cons s rest ih =>
    intro d sp h
    unfold backfill
    rw [List.foldl_cons]
    rcases List.mem_cons.mp h with h1 | h1
    · subst h1
      by_cases hs : (dictLookup d sp).isSome
      · rw [if_pos hs]
        obtain ⟨v, hv⟩ := Option.isSome_iff_exists.mp hs
        show (dictLookup (backfill d rest) sp).isSome = true
        rw [backfill_preserves rest d sp v hv]
        rfl
      · rw [if_neg hs]
        show (dictLookup (backfill (dictIns d sp none) rest) sp).isSome = true
        rw [backfill_preserves rest _ sp none (dictLookup_dictIns_self _ _ _)]
        rfl
    · by_cases hs : (dictLookup d s).isSome
      · rw [if_pos hs]
        exact ih d sp h1
      · rw [if_neg hs]
        exact ih _ sp h1

theorem backfill_keys (model_specs : List Str) :
    ∀ (d : ResDict) (sp : Str),
      sp ∈ dictKeys (backfill d model_specs) →
      sp ∈ dictKeys d ∨ sp ∈ model_specs := by
  induction model_specs with
  | nil =>
    intro d sp h
    exact Or.inl h
  | cons s rest ih =>
    intro d sp h
    unfold backfill at h
    rw [List.foldl_cons] at h
    by_cases hs : (dictLookup d s).isSome
    · rw [if_pos hs] at h
      rcases ih d sp h with h1 | h1
      · exact Or.inl h1
      · exact Or.inr (List.mem_cons_of_mem _ h1)
    · rw [if_neg hs] at h
      rcases ih _ sp h with h1 | h1
      · rcases (mem_dictKeys_dictIns _ _ _ _).mp h1 with h2 | h2
        · exact Or.inl h2
        · exact Or.inr (h2 ▸ List.mem_cons_self _ _)
      · exact Or.inr (List.mem_cons_of_mem _ h1)

theorem backfill_nodup (model_specs : List Str) :
    ∀ (d : ResDict), (dictKeys d).Nodup →
      (dictKeys (backfill d model_specs)).Nodup := by
  induction model_specs with
  | nil =>
    intro d h
    exact h
  | cons s rest ih =>
    intro d h
    unfold backfill
    rw [List.foldl_cons]
    by_cases hs : (dictLookup d s).isSome
    · rw [if_pos hs]
      exact ih d h
    · rw [if_neg hs]
      exact ih _ (nodup_dictKeys_dictIns _ _ _ h)

/-- The value dispatch assigns to one input specifier, characterized from
the initial registry: absent on parse failure and on provider-construction
failure, otherwise the batch entry of its model id within its provider
group. -/
def entrySpec (env : Env) (st : Registry) (net : Str → NetBatch)
    (model_specs : List Str) (messages : Msgs) (spec : Str) : Option QueryResult :=
  match parse_model_spec env.llm_provider spec with
  | .error _ => none
  | .ok pm =>
    match gpOkImpl env st pm.1 with
    | none => none
    | some impl =>
      (dictLookup (impl.query_models_parallel (net pm.1) messages
        (groupModelIds env.llm_provider model_specs pm.1)) pm.2).getD none

theorem qpb_exists_ok (messages : Msgs) (net : NetBatch) (t : Task) :
    ∃ d, query_provider_batch messages net t = .ok d := by
  obtain ⟨d, hd, -, -, -⟩ := query_provider_batch_char messages net t
  exact ⟨d, hd⟩

theorem qmp_eq_ok (env : Env) (st : Registry) (net : Str → NetBatch)
    (model_specs : List Str) (messages : Msgs) (dicts : List ResDict)
    (h : (groupsFoldOf env st model_specs).2.1.mapM
      (fun t => query_provider_batch messages (net t.name) t) = .ok dicts) :
    Providers.query_models_parallel env st net model_specs messages =
      { result := .ok (backfill
          (dicts.foldl dictFold (groupsFoldOf env st model_specs).1) model_specs),
        registry := (groupsFoldOf env st model_specs).2.2,
        queryLog := queryLogOf (groupsFoldOf env st model_specs).2.1 } := by
  unfold Providers.query_models_parallel
  rw [h]

theorem forall₂_mem_right_ex {α β : Type} {R : α → β → Prop} {l1 : List α}
    {l2 : List β} (h : List.Forall₂ R l1 l2) {b : β} (hb : b ∈ l2) :
    ∃ a ∈ l1, R a b := by
  induction h with
  | nil => exact absurd hb (List.not_mem_nil _)
  | cons hr _ ih =>
    rcases List.mem_cons.mp hb with rfl | h1
    · exact ⟨_, List.mem_cons_self _ _, hr⟩
    · obtain ⟨a, ha, har⟩ := ih h1
      exact ⟨a, List.mem_cons_of_mem _ ha, har⟩

theorem forall₂_mem_left_ex {α β : Type} {R : α → β → Prop} {l1 : List α}
    {l2 : List β} (h : List.Forall₂ R l1 l2) {a : α} (ha : a ∈ l1) :
    ∃ b ∈ l2, R a b := by
  induction h with
  | nil => exact absurd ha (List.not_mem_nil _)
  | cons hr _ ih =>
    rcases List.mem_cons.mp ha with rfl | h1
    · exact ⟨_, List.mem_cons_self _ _, hr⟩
    · obtain ⟨b, hb, hbr⟩ := ih h1
      exact ⟨b, List.mem_cons_of_mem _ hb, hbr⟩

theorem gpOkImpl_invalidKey (env : Env) (st : Registry) :
    gpOkImpl env st invalidKey = none := by
  unfold gpOkImpl get_provider
  rw [if_pos (by decide)]

theorem dispatch_entry (env : Env) (st : Registry) (net : Str → NetBatch)
    (model_specs : List Str) (messages : Msgs) (spec : Str)
    (hmem : spec ∈ model_specs) :
    ∃ d, (Providers.query_models_parallel env st net model_specs messages).result =
        .ok d ∧
      dictLookup d spec = some (entrySpec env st net model_specs messages spec) := by
  have hgnd : (dictKeys (buildGroups env.llm_provider model_specs)).Nodup :=
    buildGroups_keys_nodup _ _
  have hagree : ∀ g ∈ buildGroups env.llm_provider model_specs,
      dictLookup st.instances g.1 = dictLookup st.instances g.1 := fun g _ => rfl
  have hpreNone : ∀ sp v, dictLookup ([] : ResDict) sp = some v → v = none :=
    fun sp v h => Option.noConfusion h
  obtain ⟨dicts, hdicts, hfa⟩ := mapM_ok_of_forall
    (fun t => query_provider_batch messages (net t.name) t)
    (groupsFoldOf env st model_specs).2.1
    (fun t _ => qpb_exists_ok messages (net t.name) t)
  obtain ⟨nt, heqT, hfwd, hrev, hndT⟩ := groupsFold_tasks env st
    (buildGroups env.llm_provider model_specs) [] [] st hgnd hagree
  have htasks_eq : (groupsFoldOf env st model_specs).2.1 = nt := by
    unfold groupsFoldOf
    rw [heqT, List.nil_append]
  have htaskpairs : ∀ t ∈ nt, t.name ≠ invalidKey ∧
      t.pairs = groupPairs env.llm_provider model_specs t.name ∧
      gpOkImpl env st t.name = some t.prov.impl := by
    intro t ht
    obtain ⟨g, hgmem, hname, hginv, hpairs, himpl⟩ := hfwd t ht
    have hlookg : dictLookup (buildGroups env.llm_provider model_specs) g.1 = some g.2 :=
      dictLookup_eq_of_nodup_mem _ _ _ hgnd hgmem
    rw [buildGroups_lookup] at hlookg
    have hg2 : g.2 = groupEntriesOf env.llm_provider model_specs g.1 := by
      by_cases hE : groupEntriesOf env.llm_provider model_specs g.1 = []
      · rw [if_pos hE] at hlookg
        exact Option.noConfusion hlookg
      · rw [if_neg hE] at hlookg
        exact (Option.some_inj.mp hlookg).symm
    refine ⟨by rw [hname]; exact hginv, ?_, by rw [hname]; exact himpl⟩
    rw [hpairs, hg2, stripEntries_groupEntriesOf _ _ _ hginv, hname]
  have hspGroup : ∀ t ∈ nt, ∀ sp2, sp2 ∈ t.pairs.map Prod.fst →
      ∃ mid2, parse_model_spec env.llm_provider sp2 = .ok (t.name, mid2) := by
    intro t ht sp2 hsp2
    obtain ⟨-, hpairs, -⟩ := htaskpairs t ht
    rw [hpairs] at hsp2
    obtain ⟨pr, hpr, heqpr⟩ := List.mem_map.mp hsp2
    obtain ⟨-, hparse2⟩ := groupPairs_sound env.llm_provider model_specs t.name
      pr.1 pr.2 hpr
    refine ⟨pr.2, ?_⟩
    rw [← heqpr]
    exact hparse2
  have hout := qmp_eq_ok env st net model_specs messages dicts hdicts
  rw [hout]
  refine ⟨_, rfl, ?_⟩
  cases hparse : parse_model_spec env.llm_provider spec with
  | error perr =>
    have hentry : entrySpec env st net model_specs messages spec = none := by
      unfold entrySpec
      rw [hparse]
    rw [hentry]
    have hkey : groupKeyOf env.llm_provider spec = invalidKey :=
      groupKeyOf_of_parse_error _ _ _ hparse
    have hentryOf : groupEntryOf env.llm_provider spec = (spec, none) := by
      unfold groupEntryOf
      rw [hparse]
    have hEmem : (spec, (none : Option Str)) ∈
        groupEntriesOf env.llm_provider model_specs invalidKey := by
      rw [← hentryOf, ← hkey]
      exact groupEntriesOf_mem _ _ _ hmem
    have hgrp : (invalidKey, groupEntriesOf env.llm_provider model_specs invalidKey) ∈
        buildGroups env.llm_provider model_specs := by
      apply dictLookup_mem
      rw [buildGroups_lookup]
      rw [if_neg (fun hc => by rw [hc] at hEmem; exact List.not_mem_nil _ hEmem)]
    have hprelook : dictLookup (groupsFoldOf env st model_specs).1 spec =
        some (none : Option QueryResult) := by
      have := groupsFold_failed_none env st (buildGroups env.llm_provider model_specs)
        [] [] st hgnd hagree hpreNone
        (invalidKey, groupEntriesOf env.llm_provider model_specs invalidKey) hgrp
        (Or.inl rfl) (spec, none) hEmem
      exact this
    have hnotin : ∀ d2 ∈ dicts, spec ∉ dictKeys d2 := by
      intro d2 hd2 hc
      obtain ⟨t2, ht2, hr2⟩ := forall₂_mem_right_ex hfa hd2
      rw [htasks_eq] at ht2
      obtain ⟨dchar, hchar_ok, -, hkeys, -⟩ :=
        query_provider_batch_char messages (net t2.name) t2
      have hd2c : d2 = dchar := by
        rw [hr2] at hchar_ok
        exact Option.some_inj.mp (by
          have := hchar_ok
          rw [Except.ok.injEq] at this
          exact congrArg some this)
      rw [hd2c] at hc
      obtain ⟨mid2, hparse2⟩ := hspGroup t2 ht2 spec ((hkeys spec).mp hc)
      rw [hparse] at hparse2
      exact Except.noConfusion hparse2
    rw [backfill_preserves model_specs _ spec none
      (by rw [merge_lookup_not_mem dicts _ spec hnotin]; exact hprelook)]
  | ok pm =>
    cases hgp : gpOkImpl env st pm.1 with
    | none =>
      have hentry : entrySpec env st net model_specs messages spec = none := by
        unfold entrySpec
        rw [hparse]
        show (match gpOkImpl env st pm.1 with
          | none => none
          | some impl =>
            (dictLookup (impl.query_models_parallel (net pm.1) messages
              (groupModelIds env.llm_provider model_specs pm.1)) pm.2).getD none) = none
        rw [hgp]
      rw [hentry]
      have hkey : groupKeyOf env.llm_provider spec = pm.1 :=
        groupKeyOf_of_parse_ok _ _ _ hparse
      have hentryOf : groupEntryOf env.llm_provider spec = (spec, some pm.2) := by
        unfold groupEntryOf
        rw [hparse]
      have hEmem : (spec, some pm.2) ∈
          groupEntriesOf env.llm_provider model_specs pm.1 := by
        rw [← hentryOf, ← hkey]
        exact groupEntriesOf_mem _ _ _ hmem
      have hgrp : (pm.1, groupEntriesOf env.llm_provider model_specs pm.1) ∈
          buildGroups env.llm_provider model_specs := by
        apply dictLookup_mem
        rw [buildGroups_lookup]
        rw [if_neg (fun hc => by rw [hc] at hEmem; exact List.not_mem_nil _ hEmem)]
      have hprelook : dictLookup (groupsFoldOf env st model_specs).1 spec =
          some (none : Option QueryResult) := by
        have := groupsFold_failed_none env st (buildGroups env.llm_provider model_specs)
          [] [] st hgnd hagree hpreNone
          (pm.1, groupEntriesOf env.llm_provider model_specs pm.1) hgrp
          (Or.inr hgp) (spec, some pm.2) hEmem
        exact this
      have hnotin : ∀ d2 ∈ dicts, spec ∉ dictKeys d2 := by
        intro d2 hd2 hc
        obtain ⟨t2, ht2, hr2⟩ := forall₂_mem_right_ex hfa hd2
        rw [htasks_eq] at ht2
        obtain ⟨dchar, hchar_ok, -, hkeys, -⟩ :=
          query_provider_batch_char messages (net t2.name) t2
        have hd2c : d2 = dchar := by
          rw [hr2] at hchar_ok
          rw [Except.ok.injEq] at hchar_ok
          exact hchar_ok
        rw [hd2c] at hc
        obtain ⟨mid2, hparse2⟩ := hspGroup t2 ht2 spec ((hkeys spec).mp hc)
        rw [hparse] at hparse2
        rw [Except.ok.injEq, Prod.mk.injEq] at hparse2
        obtain ⟨hname2, -⟩ := hparse2
        obtain ⟨-, -, himpl2⟩ := htaskpairs t2 ht2
        rw [hname2] at hgp
        rw [hgp] at himpl2
        exact Option.noConfusion himpl2
      rw [backfill_preserves model_specs _ spec none
        (by rw [merge_lookup_not_mem dicts _ spec hnotin]; exact hprelook)]
    | some impl =>
      have hpm1inv : pm.1 ≠ invalidKey := by
        intro hc
        rw [hc, gpOkImpl_invalidKey] at hgp
        exact Option.noConfusion hgp
      have hentry : entrySpec env st net model_specs messages spec =
          (dictLookup (impl.query_models_parallel (net pm.1) messages
            (groupModelIds env.llm_provider model_specs pm.1)) pm.2).getD none := by
        unfold entrySpec
        rw [hparse]
        show (match gpOkImpl env st pm.1 with
          | none => none
          | some impl2 =>
            (dictLookup (impl2.query_models_parallel (net pm.1) messages
              (groupModelIds env.llm_provider model_specs pm.1)) pm.2).getD none) = _
        rw [hgp]
      rw [hentry]
      have hkey : groupKeyOf env.llm_provider spec = pm.1 :=
        groupKeyOf_of_parse_ok _ _ _ hparse
      have hentryOf : groupEntryOf env.llm_provider spec = (spec, some pm.2) := by
        unfold groupEntryOf
        rw [hparse]
      have hEmem : (spec, some pm.2) ∈
          groupEntriesOf env.llm_provider model_specs pm.1 := by
        rw [← hentryOf, ← hkey]
        exact groupEntriesOf_mem _ _ _ hmem
      have hgrp : (pm.1, groupEntriesOf env.llm_provider model_specs pm.1) ∈
          buildGroups env.llm_provider model_specs := by
        apply dictLookup_mem
        rw [buildGroups_lookup]
        rw [if_neg (fun hc => by rw [hc] at hEmem; exact List.not_mem_nil _ hEmem)]
      obtain ⟨tstar, htstar, hnamestar, hpairsstar⟩ := hrev
        (pm.1, groupEntriesOf env.llm_provider model_specs pm.1) hgrp hpm1inv
        (by show gpOkImpl env st pm.1 ≠ none
            rw [hgp]
            exact fun hc => Option.noConfusion hc)
      have hpairs2 : tstar.pairs = groupPairs env.llm_provider model_specs pm.1 := by
        rw [hpairsstar]
        exact stripEntries_groupEntriesOf _ _ _ hpm1inv
      have himplstar : tstar.prov.impl = impl := by
        obtain ⟨-, -, himpl3⟩ := htaskpairs tstar htstar
        rw [hnamestar, hgp] at himpl3
        exact (Option.some_inj.mp himpl3).symm
      have hfun : ∀ s m1 m2, (s, m1) ∈ tstar.pairs → (s, m2) ∈ tstar.pairs → m1 = m2 := by
        intro s m1 m2 h1 h2
        rw [hpairs2] at h1 h2
        obtain ⟨-, hp1⟩ := groupPairs_sound _ _ _ _ _ h1
        obtain ⟨-, hp2⟩ := groupPairs_sound _ _ _ _ _ h2
        rw [hp1] at hp2
        rw [Except.ok.injEq, Prod.mk.injEq] at hp2
        exact hp2.2
      have hspmem : (spec, pm.2) ∈ tstar.pairs := by
        rw [hpairs2]
        exact groupPairs_mem_intro _ _ _ _ _ hmem (by rw [hparse])
      obtain ⟨dchar, hchar_ok, hcharnd, hkeys, hlookchar⟩ :=
        query_provider_batch_char messages (net tstar.name) tstar
      obtain ⟨dmid, hdmid, hrmid⟩ := forall₂_mem_left_ex hfa (by
        rw [htasks_eq]
        exact htstar)
      have hdmidchar : dmid = dchar := by
        rw [hrmid] at hchar_ok
        rw [Except.ok.injEq] at hchar_ok
        exact hchar_ok
      have hvlook : dictLookup dmid spec =
          some ((dictLookup (impl.query_models_parallel (net pm.1) messages
            (groupModelIds env.llm_provider model_specs pm.1)) pm.2).getD none) := by
        rw [hdmidchar]
        have := hlookchar hfun spec pm.2 hspmem
        rw [this, himplstar, hnamestar]
        have hmodels : tstar.pairs.map Prod.snd =
            groupModelIds env.llm_provider model_specs pm.1 := by
          rw [hpairs2]
          rfl
        rw [hmodels]
      have hothers : ∀ d2 ∈ dicts, d2 ≠ dmid → spec ∉ dictKeys d2 := by
        intro d2 hd2 hne hc
        obtain ⟨t2, ht2, hr2⟩ := forall₂_mem_right_ex hfa hd2
        rw [htasks_eq] at ht2
        obtain ⟨dchar2, hchar_ok2, -, hkeys2, -⟩ :=
          query_provider_batch_char messages (net t2.name) t2
        have hd2c : d2 = dchar2 := by
          rw [hr2] at hchar_ok2
          rw [Except.ok.injEq] at hchar_ok2
          exact hchar_ok2
        rw [hd2c] at hc
        obtain ⟨mid2, hparse2⟩ := hspGroup t2 ht2 spec ((hkeys2 spec).mp hc)
        rw [hparse] at hparse2
        rw [Except.ok.injEq, Prod.mk.injEq] at hparse2
        obtain ⟨hname2, -⟩ := hparse2
        have ht2star : t2 = tstar := by
          apply List.inj_on_of_nodup_map hndT ht2 htstar
          rw [hnamestar, ← hname2]
        apply hne
        rw [hd2c]
        rw [ht2star] at hchar_ok2
        rw [hrmid] at hchar_ok2
        rw [Except.ok.injEq] at hchar_ok2
        exact hchar_ok2.symm
      have hsame : ∀ d2 ∈ dicts, d2 = dmid → ∀ v2,
          dictLookup d2 spec = some v2 →
          v2 = (dictLookup (impl.query_models_parallel (net pm.1) messages
            (groupModelIds env.llm_provider model_specs pm.1)) pm.2).getD none := by
        intro d2 hd2 heq v2 hv2
        rw [heq, hvlook] at hv2
        exact Option.some_inj.mp hv2.symm
      have hmerge := merge_lookup_of_unique dicts
        (groupsFoldOf env st model_specs).1 dmid spec _ hdmid
        (hdmidchar ▸ hcharnd) hvlook hothers hsame
      rw [backfill_preserves model_specs _ spec _ hmerge]

theorem buildGroups_entry_mem (llm_provider : Str) (model_specs : List Str) :
    ∀ g ∈ buildGroups llm_provider model_specs, ∀ e ∈ g.2, e.1 ∈ model_specs := by
  intro g hg e he
  have hlookg := dictLookup_eq_of_nodup_mem _ _ _
    (buildGroups_keys_nodup llm_provider model_specs) hg
  rw [buildGroups_lookup] at hlookg
  have hg2 : g.2 = groupEntriesOf llm_provider model_specs g.1 := by
    by_cases hE : groupEntriesOf llm_provider model_specs g.1 = []
    · rw [if_pos hE] at hlookg
      exact Option.noConfusion hlookg
    · rw [if_neg hE] at hlookg
      exact (Option.some_inj.mp hlookg).symm
  rw [hg2] at he
  obtain ⟨s, hs, -, he2⟩ := groupEntriesOf_sound _ _ _ _ he
  rw [he2, groupEntryOf_fst]
  exact hs

theorem groupsFoldOf_tasks_pairs (env : Env) (st : Registry) (model_specs : List Str) :
    ∀ t ∈ (groupsFoldOf env st model_specs).2.1,
      t.pairs = groupPairs env.llm_provider model_specs t.name := by
  intro t ht
  obtain ⟨nt, heqT, hfwd, -, -⟩ := groupsFold_tasks env st
    (buildGroups env.llm_provider model_specs) [] [] st
    (buildGroups_keys_nodup _ _) (fun g _ => rfl)
  have htasks_eq : (groupsFoldOf env st model_specs).2.1 = nt := by
    unfold groupsFoldOf
    rw [heqT, List.nil_append]
  rw [htasks_eq] at ht
  obtain ⟨g, hgmem, hname, hginv, hpairs, -⟩ := hfwd t ht
  have hlookg := dictLookup_eq_of_nodup_mem _ _ _
    (buildGroups_keys_nodup env.llm_provider model_specs) hgmem
  rw [buildGroups_lookup] at hlookg
  have hg2 : g.2 = groupEntriesOf env.llm_provider model_specs g.1 := by
    by_cases hE : groupEntriesOf env.llm_provider model_specs g.1 = []
    · rw [if_pos hE] at hlookg
      exact Option.noConfusion hlookg
    · rw [if_neg hE] at hlookg
      exact (Option.some_inj.mp hlookg).symm
  rw [hpairs, hg2, stripEntries_groupEntriesOf _ _ _ hginv, hname]

theorem gpOkImpl_openrouter_missing (env : Env) (st : Registry)
    (hkey : pyFalsy env.openrouter_api_key = true)
    (hcache : dictLookup st.instances openrouterName = none) :
    gpOkImpl env st openrouterName = none := by
  unfold gpOkImpl get_provider
  rw [if_neg (fun hc => hc.1 rfl), hcache, if_pos rfl, if_pos hkey]

theorem gpOkImpl_ollama_some (env : Env) (st : Registry) :
    ∃ impl, gpOkImpl env st ollamaName = some impl := by
  unfold gpOkImpl get_provider
  rw [if_neg (fun hc => hc.2 rfl)]
  cases hlook : dictLookup st.instances ollamaName with
  | some p => exact ⟨p.impl, rfl⟩
  | none =>
    rw [if_neg (by decide)]
    exact ⟨.ollama (rstripChar env.ollama_base_url '/'), rfl⟩

/-- C10: dispatching the empty specifier list returns the empty mapping,
leaves the registry untouched (so no provider is constructed) and issues
no query at all. -/
theorem dispatch_empty (env : Env) (st : Registry) (net : Str → NetBatch)
    (messages : Msgs) :
    Providers.query_models_parallel env st net [] messages =
      { result := .ok [], registry := st, queryLog := [] } := rfl

/-- C2: no exception of this subsystem crosses the dispatch boundary, and
every failure only turns the affected specifier absent: query_model always
returns a value — its except clauses absorb ValueError and every other
exception, returning None whenever its body raises, with the adapters
themselves mapping every transport failure to an absent result — and
query_models_parallel always returns a mapping, in which a specifier whose
parse raised is mapped to None; its get_provider failures are likewise
caught, and the gathered batch tasks never raise a KeyError because every
grouped model id is a key of its provider batch dict. -/
theorem dispatch_no_exception_escapes :
    (∀ (env : Env) (st : Registry) (net : NetByProv) (spec : Str) (messages : Msgs),
      ∃ r st2, Providers.query_model env st net spec messages = (.ok r, st2)) ∧
    (∀ (env : Env) (st : Registry) (net : NetByProv) (spec : Str) (messages : Msgs)
        (e : PyErr) (st2 : Registry),
      query_model_body env st net spec messages = (.error e, st2) →
      Providers.query_model env st net spec messages = (.ok none, st2)) ∧
    (∀ (env : Env) (st : Registry) (net : Str → NetBatch) (specs : List Str)
        (messages : Msgs),
      ∃ d, (Providers.query_models_parallel env st net specs messages).result =
        .ok d) ∧
    (∀ (env : Env) (st : Registry) (net : Str → NetBatch) (specs : List Str)
        (messages : Msgs) (spec : Str), spec ∈ specs →
      (∃ e2, parse_model_spec env.llm_provider spec = .error e2) →
      ∃ d, (Providers.query_models_parallel env st net specs messages).result =
          .ok d ∧
        dictLookup d spec = some none) := by
  refine ⟨?_, ?_, ?_, ?_⟩
  · intro env st net spec messages
    unfold Providers.query_model
    cases hb : query_model_body env st net spec messages with
    | mk res st2 =>
      cases res with
      | ok r => exact ⟨r, st2, rfl⟩
      | error e =>
        refine ⟨none, st2, ?_⟩
        show (if e.isValueError = true
          then ((Except.ok none : Except PyErr (Option QueryResult)), st2)
          else (.ok none, st2)) =
          ((Except.ok none : Except PyErr (Option QueryResult)), st2)
        exact ite_self _
  · intro env st net spec messages e st2 hbody
    unfold Providers.query_model
    rw [hbody]
    show (if e.isValueError = true
      then ((Except.ok none : Except PyErr (Option QueryResult)), st2)
      else (.ok none, st2)) =
      ((Except.ok none : Except PyErr (Option QueryResult)), st2)
    exact ite_self _
  · intro env st net specs messages
    obtain ⟨dicts, hdicts, -⟩ := mapM_ok_of_forall
      (fun t => query_provider_batch messages (net t.name) t)
      (groupsFoldOf env st specs).2.1
      (fun t _ => qpb_exists_ok messages (net t.name) t)
    rw [qmp_eq_ok env st net specs messages dicts hdicts]
    exact ⟨_, rfl⟩
  · intro env st net specs messages spec hmem hperr
    obtain ⟨e2, hparse⟩ := hperr
    obtain ⟨d, hd, hlook⟩ := dispatch_entry env st net specs messages spec hmem
    refine ⟨d, hd, ?_⟩
    rw [hlook]
    have hentry : entrySpec env st net specs messages spec = none := by
      unfold entrySpec
      rw [hparse]
    rw [hentry]

theorem dispatch_no_exception_escapes_witness :
    Providers.query_model
        { llm_provider := "mixed".toList, openrouter_api_key := some "k".toList,
          ollama_base_url := "u".toList }
        initRegistry (fun _ => fun _ _ => Except.ok []) "bare-x".toList [] =
      (.ok none, initRegistry) ∧
    (∃ d, (Providers.query_models_parallel
        { llm_provider := "mixed".toList, openrouter_api_key := some "k".toList,
          ollama_base_url := "u".toList }
        initRegistry (fun _ => fun _ => fun _ _ => Except.ok [])
        ["bare-x".toList] []).result = .ok d ∧
      dictLookup d "bare-x".toList = some none) :=
  ⟨(dispatch_no_exception_escapes.2.1
      { llm_provider := "mixed".toList, openrouter_api_key := some "k".toList,
        ollama_base_url := "u".toList }
      initRegistry (fun _ => fun _ _ => Except.ok []) "bare-x".toList []
      (PyErr.ambiguousSpec "bare-x".toList) initRegistry (by decide)),
   (dispatch_no_exception_escapes.2.2.2
      { llm_provider := "mixed".toList, openrouter_api_key := some "k".toList,
        ollama_base_url := "u".toList }
      initRegistry (fun _ => fun _ => fun _ _ => Except.ok [])
      ["bare-x".toList] [] "bare-x".toList (by decide)
      ⟨PyErr.ambiguousSpec "bare-x".toList, by decide⟩)⟩

/-- C1: for every non-empty specifier sequence the dispatch result is a
mapping whose key set equals exactly the set of distinct input
specifiers — one entry per specifier, none omitted, none added —
whatever the individual query outcomes are. -/
theorem dispatch_keys_exact (env : Env) (st : Registry) (net : Str → NetBatch)
    (model_specs : List Str) (messages : Msgs) (hne : model_specs ≠ []) :
    ∃ d, (Providers.query_models_parallel env st net model_specs messages).result =
        .ok d ∧
      (dictKeys d).Nodup ∧ (∀ sp, sp ∈ dictKeys d ↔ sp ∈ model_specs) := by
  obtain ⟨dicts, hdicts, hfa⟩ := mapM_ok_of_forall
    (fun t => query_provider_batch messages (net t.name) t)
    (groupsFoldOf env st model_specs).2.1
    (fun t _ => qpb_exists_ok messages (net t.name) t)
  rw [qmp_eq_ok env st net model_specs messages dicts hdicts]
  refine ⟨_, rfl, ?_, ?_⟩
  · apply backfill_nodup
    apply merge_nodup
    exact groupsFold_nodup env (buildGroups env.llm_provider model_specs) [] [] st
      List.nodup_nil
  · intro sp
    constructor
    · intro hsp
      rcases backfill_keys model_specs _ sp hsp with h1 | h1
      · rcases (merge_keys dicts _ sp).mp h1 with h2 | h2
        · rw [mem_dictKeys_iff_lookup] at h2
          rcases groupsFold_isSome_sources env
            (buildGroups env.llm_provider model_specs) [] [] st sp h2 with h3 | h3
          · exact absurd h3 (by rw [show dictLookup ([] : ResDict) sp = none from rfl]
                                simp)
          · obtain ⟨g, hgmem, hsp2⟩ := h3
            obtain ⟨e, he, heq⟩ := List.mem_map.mp hsp2
            rw [← heq]
            exact buildGroups_entry_mem env.llm_provider model_specs g hgmem e he
        · obtain ⟨d2, hd2, hsp2⟩ := h2
          obtain ⟨t2, ht2, hr2⟩ := forall₂_mem_right_ex hfa hd2
          obtain ⟨dchar, hchar_ok, -, hkeys, -⟩ :=
            query_provider_batch_char messages (net t2.name) t2
          have hd2c : d2 = dchar := by
            rw [hr2] at hchar_ok
            rw [Except.ok.injEq] at hchar_ok
            exact hchar_ok
          rw [hd2c] at hsp2
          have hinpairs := (hkeys sp).mp hsp2
          rw [groupsFoldOf_tasks_pairs env st model_specs t2 ht2] at hinpairs
          obtain ⟨pr, hpr, heqpr⟩ := List.mem_map.mp hinpairs
          obtain ⟨hin, -⟩ := groupPairs_sound env.llm_provider model_specs t2.name
            pr.1 pr.2 hpr
          rw [← heqpr]
          exact hin
      · exact h1
    · intro hsp
      rw [mem_dictKeys_iff_lookup]
      exact backfill_isSome model_specs _ sp hsp

theorem dispatch_keys_exact_witness :
    ∃ d, (Providers.query_models_parallel
        { llm_provider := "ollama".toList, openrouter_api_key := none,
          ollama_base_url := "u".toList }
        initRegistry (fun _ => fun _ => fun _ _ => Except.error HttpErr.connectError)
        ["ollama:a".toList, "b".toList] []).result = .ok d ∧
      (dictKeys d).Nodup ∧
      (∀ sp, sp ∈ dictKeys d ↔ sp ∈ ["ollama:a".toList, "b".toList]) :=
  dispatch_keys_exact
    { llm_provider := "ollama".toList, openrouter_api_key := none,
      ollama_base_url := "u".toList }
    initRegistry (fun _ => fun _ => fun _ _ => Except.error HttpErr.connectError)
    ["ollama:a".toList, "b".toList] [] (by decide)

/-- C8: with the openrouter credential missing and no openrouter instance
cached, a dispatch call resolves every openrouter-destined specifier to an
absent result, while an ollama-destined specifier still receives exactly
its own ollama batch entry — an expression involving only the ollama
group, its adapter instance and the ollama network oracle — unaffected by
the openrouter failure. -/
theorem credential_failure_isolated (env : Env) (st : Registry) (net : Str → NetBatch)
    (model_specs : List Str) (messages : Msgs) (spec mid : Str)
    (hkey : pyFalsy env.openrouter_api_key = true)
    (hcache : dictLookup st.instances openrouterName = none)
    (hmem : spec ∈ model_specs) :
    (parse_model_spec env.llm_provider spec = .ok (openrouterName, mid) →
      ∃ d, (Providers.query_models_parallel env st net model_specs messages).result =
          .ok d ∧
        dictLookup d spec = some none) ∧
    (parse_model_spec env.llm_provider spec = .ok (ollamaName, mid) →
      ∃ d impl,
        (Providers.query_models_parallel env st net model_specs messages).result =
          .ok d ∧
        gpOkImpl env st ollamaName = some impl ∧
        dictLookup d spec = some ((dictLookup (impl.query_models_parallel
          (net ollamaName) messages
          (groupModelIds env.llm_provider model_specs ollamaName)) mid).getD none)) := by
  constructor
  · intro hparse
    obtain ⟨d, hd, hlook⟩ := dispatch_entry env st net model_specs messages spec hmem
    refine ⟨d, hd, ?_⟩
    rw [hlook]
    have hentry : entrySpec env st net model_specs messages spec = none := by
      unfold entrySpec
      rw [hparse]
      show (match gpOkImpl env st openrouterName with
        | none => none
        | some impl =>
          (dictLookup (impl.query_models_parallel (net openrouterName) messages
            (groupModelIds env.llm_provider model_specs openrouterName)) mid).getD
            none) = none
      rw [gpOkImpl_openrouter_missing env st hkey hcache]
    rw [hentry]
  · intro hparse
    obtain ⟨d, hd, hlook⟩ := dispatch_entry env st net model_specs messages spec hmem
    obtain ⟨impl, himpl⟩ := gpOkImpl_ollama_some env st
    refine ⟨d, impl, hd, himpl, ?_⟩
    rw [hlook]
    have hentry : entrySpec env st net model_specs messages spec =
        (dictLookup (impl.query_models_parallel (net ollamaName) messages
          (groupModelIds env.llm_provider model_specs ollamaName)) mid).getD none := by
      unfold entrySpec
      rw [hparse]
      show (match gpOkImpl env st ollamaName with
        | none => none
        | some impl2 =>
          (dictLookup (impl2.query_models_parallel (net ollamaName) messages
            (groupModelIds env.llm_provider model_specs ollamaName)) mid).getD
            none) = _
      rw [himpl]
    rw [hentry]

theorem credential_failure_isolated_witness :
    (∃ d, (Providers.query_models_parallel
        { llm_provider := "ollama".toList, openrouter_api_key := none,
          ollama_base_url := "u".toList }
        initRegistry (fun _ => fun _ => fun _ _ => Except.ok [])
        ["openrouter:gpt".toList, "llama".toList] []).result = .ok d ∧
      dictLookup d "openrouter:gpt".toList = some none) ∧
    (∃ d impl, (Providers.query_models_parallel
        { llm_provider := "ollama".toList, openrouter_api_key := none,
          ollama_base_url := "u".toList }
        initRegistry (fun _ => fun _ => fun _ _ => Except.ok [])
        ["openrouter:gpt".toList, "llama".toList] []).result = .ok d ∧
      gpOkImpl
        { llm_provider := "ollama".toList, openrouter_api_key := none,
          ollama_base_url := "u".toList }
        initRegistry ollamaName = some impl ∧
      dictLookup d "llama".toList = some ((dictLookup (impl.query_models_parallel
        ((fun _ => fun _ => fun _ _ => Except.ok
          ([] : MsgDict)) ollamaName) []
        (groupModelIds "ollama".toList
          ["openrouter:gpt".toList, "llama".toList] ollamaName))
        "llama".toList).getD none)) :=
  ⟨(credential_failure_isolated
      { llm_provider := "ollama".toList, openrouter_api_key := none,
        ollama_base_url := "u".toList }
      initRegistry (fun _ => fun _ => fun _ _ => Except.ok [])
      ["openrouter:gpt".toList, "llama".toList] []
      "openrouter:gpt".toList "gpt".toList
      (by decide) (by decide) (by decide)).1 (by decide),
   (credential_failure_isolated
      { llm_provider := "ollama".toList, openrouter_api_key := none,
        ollama_base_url := "u".toList }
      initRegistry (fun _ => fun _ => fun _ _ => Except.ok [])
      ["openrouter:gpt".toList, "llama".toList] []
      "llama".toList "llama".toList
      (by decide) (by decide) (by decide)).2 (by decide)⟩

/-- C6: over a list of distinct model ids each adapter batch returns
exactly one entry per input id, in input order; the entry of the i-th
model is that single query task's own outcome; and replacing the network
behavior of any other task — for example by a failure — leaves a model's
entry unchanged. Both adapters build their batch dicts identically, and a
batch depends only on its own oracle, so a failure in one backend group
cannot reach another group's entries. -/
theorem provider_batch_per_model (models : List Str) (messages : Msgs)
    (hnd : models.Nodup) :
    (∀ net : NetBatch,
      dictKeys (OllamaProvider.query_models_parallel net messages models) = models ∧
      dictKeys (OpenRouterProvider.query_models_parallel net messages models) =
        models) ∧
    (∀ (net : NetBatch) (i : Nat) (m : Str), models.get? i = some m →
      dictLookup (OllamaProvider.query_models_parallel net messages models) m =
        some (OllamaProvider.query_model m messages (net i)) ∧
      dictLookup (OpenRouterProvider.query_models_parallel net messages models) m =
        some (OpenRouterProvider.query_model m messages (net i))) ∧
    (∀ (net net2 : NetBatch) (i : Nat) (m : Str), models.get? i = some m →
      net i = net2 i →
      dictLookup (OllamaProvider.query_models_parallel net messages models) m =
        dictLookup (OllamaProvider.query_models_parallel net2 messages models) m ∧
      dictLookup (OpenRouterProvider.query_models_parallel net messages models) m =
        dictLookup (OpenRouterProvider.query_models_parallel net2 messages models) m) := by
  refine ⟨?_, ?_, ?_⟩
  · intro net
    exact ⟨dictKeys_batchOf_nodup
        (fun i m2 => OllamaProvider.query_model m2 messages (net i)) models hnd,
      dictKeys_batchOf_nodup
        (fun i m2 => OpenRouterProvider.query_model m2 messages (net i)) models hnd⟩
  · intro net i m hget
    exact ⟨batchOf_lookup_nodup
        (fun i2 m2 => OllamaProvider.query_model m2 messages (net i2)) models i m
        hnd hget,
      batchOf_lookup_nodup
        (fun i2 m2 => OpenRouterProvider.query_model m2 messages (net i2)) models i m
        hnd hget⟩
  · intro net net2 i m hget hnet
    constructor
    · show dictLookup (batchOf
          (fun i2 m2 => OllamaProvider.query_model m2 messages (net i2)) models) m =
        dictLookup (batchOf
          (fun i2 m2 => OllamaProvider.query_model m2 messages (net2 i2)) models) m
      rw [batchOf_lookup_nodup _ models i m hnd hget,
        batchOf_lookup_nodup _ models i m hnd hget, hnet]
    · show dictLookup (batchOf
          (fun i2 m2 => OpenRouterProvider.query_model m2 messages (net i2)) models) m =
        dictLookup (batchOf
          (fun i2 m2 => OpenRouterProvider.query_model m2 messages (net2 i2)) models) m
      rw [batchOf_lookup_nodup _ models i m hnd hget,
        batchOf_lookup_nodup _ models i m hnd hget, hnet]

theorem provider_batch_per_model_witness :
    (dictKeys (OllamaProvider.query_models_parallel
        (fun _ => fun _ _ => Except.ok []) [] ["m1".toList, "m2".toList]) =
      ["m1".toList, "m2".toList] ∧
     dictKeys (OpenRouterProvider.query_models_parallel
        (fun _ => fun _ _ => Except.ok []) [] ["m1".toList, "m2".toList]) =
      ["m1".toList, "m2".toList]) ∧
    (dictLookup (OllamaProvider.query_models_parallel
        (fun _ => fun _ _ => Except.ok []) [] ["m1".toList, "m2".toList])
        "m1".toList =
      dictLookup (OllamaProvider.query_models_parallel
        (fun i => match i with
          | 0 => fun _ _ => Except.ok []
          | _ + 1 => fun _ _ => Except.error HttpErr.connectError)
        [] ["m1".toList, "m2".toList]) "m1".toList) :=
  ⟨(provider_batch_per_model ["m1".toList, "m2".toList] [] (by decide)).1
      (fun _ => fun _ _ => Except.ok []),
   ((provider_batch_per_model ["m1".toList, "m2".toList] [] (by decide)).2.2
      (fun _ => fun _ _ => Except.ok [])
      (fun i => match i with
        | 0 => fun _ _ => Except.ok []
        | _ + 1 => fun _ _ => Except.error HttpErr.connectError)
      0 "m1".toList (by decide) rfl).1⟩

end LLMCouncil
